import Mathlib

/-!
Verification development for the pymq message-oriented middleware library.

The definitions below are a shallow embedding of the Python source:

* `pymq/typing.py` — the polymorphic value codec (`deep_to_dict` /
  `deep_from_dict`), modelled over an explicit universe of Python runtime
  values (`Value`), portable documents (`Doc`) and target types (`Ty`).
* `pymq/json.py` — the JSON layer (`DeepDictEncoder.encode` /
  `DeepDictDecoder.decode`), including the `__type` / `__list` / `__obj`
  tagging scheme.
* `pymq/provider/aws.py` — the SNS topic-name codec
  (`encode_topic_name` / `decode_topic_name`).
* `pymq/provider/base.py` — the subscriber registry and RPC stub/skeleton
  protocol of `AbstractEventBus`, `DefaultStubMethod`, `DefaultSkeletonMethod`.
* `pymq/core.py` — the module-level bus state (`publish`, `queue`,
  `add_listener`) before a transport is bound.

Machine integers are modelled as `Int`/`Nat` (Python integers are unbounded);
Python floats never flow through any arithmetic in the modelled code — the
codec only passes them through — so they are carried as opaque bit patterns.
Exceptions are modelled with `Option`/`Except` and explicit error values.
-/

namespace Pymq

/-! ## Value universe (Python runtime values reachable by the codec)

Python values are modelled as a family of mutual inductives: `Value` for a
single value, `VList` for lists/tuples/sets of values (a Python `set` is
carried as the list of its elements in iteration order), `VEntries` for the
entries of a `dict` in insertion order, and `VFields` for the attribute
dictionary (`__dict__`) of a named record in declaration order. -/

mutual

inductive Value where
  | vnone
  | vbool (b : Bool)
  | vint (n : Int)
  | vfloat (bits : Nat)
  | vstr (s : String)
  | vbytes (bs : List Nat)
  | vlist (l : VList)
  | vtuple (l : VList)
  | vset (l : VList)
  | vdict (es : VEntries)
  | vrecord (cls : String) (fields : VFields)
  | verr (cls : String) (args : VList)

inductive VList where
  | nil
  | cons (v : Value) (tl : VList)

inductive VEntries where
  | nil
  | cons (k v : Value) (tl : VEntries)

inductive VFields where
  | nil
  | cons (name : String) (v : Value) (tl : VFields)

end

/-! ## Document universe (output of `deep_to_dict`)

`deep_to_dict` maps values to plain Python data: `None`, primitives, lists,
tuples, sets and dicts of documents.  Classes and functions also map to
their fullname string, but such values do not occur inside codec-compatible
payloads and are omitted. -/

mutual

inductive Doc where
  | dnone
  | dbool (b : Bool)
  | dint (n : Int)
  | dfloat (bits : Nat)
  | dstr (s : String)
  | dbytes (bs : List Nat)
  | dlist (l : DList)
  | dtuple (l : DList)
  | dset (l : DList)
  | ddict (es : DEntries)

inductive DList where
  | nil
  | cons (d : Doc) (tl : DList)

inductive DEntries where
  | nil
  | cons (k v : Doc) (tl : DEntries)

end

/-! ## Target types (the `cls` argument of `deep_from_dict`)

`Ty` mirrors the types the decoder dispatches on: the primitive classes,
the typed generic containers `List[t]`, `Set[t]`, `Tuple[t1, ..., tn]`,
`Dict[k, v]`, named record classes (a class name together with its
`get_type_hints` in declaration order) and exception classes. -/

mutual

inductive Ty where
  | tbool
  | tint
  | tfloat
  | tstr
  | tbytes
  | tlist (t : Ty)
  | tset (t : Ty)
  | ttuple (ts : TyList)
  | tdict (k v : Ty)
  | trecord (cls : String) (fields : TyFields)
  | terr (cls : String)

inductive TyList where
  | nil
  | cons (t : Ty) (tl : TyList)

inductive TyFields where
  | nil
  | cons (name : String) (t : Ty) (tl : TyFields)

end

/-! ## Hashability

Python raises `TypeError: unhashable type` when a `list`, `set` or `dict`
(or a tuple containing one) is inserted into a set or used as a dict key.
`docHashable` is hashability of a document; `valueHashable` is hashability
of a runtime value (class instances, including exceptions, are hashable by
object identity). -/

mutual

def docHashable : Doc → Bool
  | .dlist _ => false
  | .dset _ => false
  | .ddict _ => false
  | .dtuple l => docHashableList l
  | _ => true

def docHashableList : DList → Bool
  | .nil => true
  | .cons d tl => docHashable d && docHashableList tl

end

mutual

def valueHashable : Value → Bool
  | .vlist _ => false
  | .vset _ => false
  | .vdict _ => false
  | .vtuple l => valueHashableList l
  | _ => true

def valueHashableList : VList → Bool
  | .nil => true
  | .cons v tl => valueHashable v && valueHashableList tl

end

/-! ## Encoding: `deep_to_dict` (`pymq/typing.py` lines 120–148)

`deep_to_dict` is partial: building the document for a `set` whose elements
encode to unhashable documents raises `TypeError` in Python, which is
modelled as `none`.  Dict keys are kept unchanged by the source
(`{k: deep_to_dict(v) for k, v in obj.items()}`); a key that is itself
plain hashable data *is* a document, embedded by `keyDoc`; for any other
key the resulting Python object would not be a pure document, and the
embedding rejects it (such keys never occur in codec-compatible mappings,
which are string/int keyed). -/

mutual

def keyDoc : Value → Option Doc
  | .vnone => some .dnone
  | .vbool b => some (.dbool b)
  | .vint n => some (.dint n)
  | .vfloat f => some (.dfloat f)
  | .vstr s => some (.dstr s)
  | .vbytes bs => some (.dbytes bs)
  | .vtuple l => (keyDocList l).map .dtuple
  | _ => none

def keyDocList : VList → Option DList
  | .nil => some .nil
  | .cons v tl => (keyDoc v).bind fun d => (keyDocList tl).map (.cons d)

end

mutual

def deep_to_dict : Value → Option Doc
  | .vnone => some .dnone
  | .vbool b => some (.dbool b)
  | .vint n => some (.dint n)
  | .vfloat f => some (.dfloat f)
  | .vstr s => some (.dstr s)
  | .vbytes bs => some (.dbytes bs)
  | .vtuple l => (encList l).map .dtuple
  | .vlist l => (encList l).map .dlist
  | .vdict es => (encEntries es).map .ddict
  | .vset l => (encSet l).map .dset
  | .vrecord _ fs => (encFields fs).map .ddict
  | .verr _ args => (encList args).map .dtuple

def encList : VList → Option DList
  | .nil => some .nil
  | .cons v tl => (deep_to_dict v).bind fun d => (encList tl).map (.cons d)

def encSet : VList → Option DList
  | .nil => some .nil
  | .cons v tl =>
    (deep_to_dict v).bind fun d =>
      if docHashable d then (encSet tl).map (.cons d) else none

def encEntries : VEntries → Option DEntries
  | .nil => some .nil
  | .cons k v tl =>
    (keyDoc k).bind fun kd =>
      (deep_to_dict v).bind fun vd =>
        (encEntries tl).map (.cons kd vd)

def encFields : VFields → Option DEntries
  | .nil => some .nil
  | .cons name v tl =>
    (deep_to_dict v).bind fun vd =>
      (encFields tl).map (.cons (.dstr name) vd)

end

/-! ## Decoding helpers -/

mutual

/-- Embedding of a document as the Python runtime value it already is
(documents are plain Python data). -/
def docToValue : Doc → Value
  | .dnone => .vnone
  | .dbool b => .vbool b
  | .dint n => .vint n
  | .dfloat f => .vfloat f
  | .dstr s => .vstr s
  | .dbytes bs => .vbytes bs
  | .dlist l => .vlist (docListToValues l)
  | .dtuple l => .vtuple (docListToValues l)
  | .dset l => .vset (docListToValues l)
  | .ddict es => .vdict (docEntriesToValues es)

def docListToValues : DList → VList
  | .nil => .nil
  | .cons d tl => .cons (docToValue d) (docListToValues tl)

def docEntriesToValues : DEntries → VEntries
  | .nil => .nil
  | .cons k v tl => .cons (docToValue k) (docToValue v) (docEntriesToValues tl)

end

/-- Python `==` between a dict key document and a plain string (used by
`name in doc` and `doc[name]` in the record branch of `deep_from_dict`):
only a string key equal to the name compares equal. -/
def keyMatches (k : Doc) (name : String) : Bool :=
  match k with
  | .dstr s => s == name
  | _ => false

/-- Lookup `doc[name]` in a dict document (first entry whose key `==` name). -/
def lookupDE (es : DEntries) (name : String) : Option Doc :=
  match es with
  | .nil => none
  | .cons k v tl => if keyMatches k name then some v else lookupDE tl name

def entryKeys : DEntries → DList
  | .nil => .nil
  | .cons k _ tl => .cons k (entryKeys tl)

/-- Iteration `for element in doc` over a document.  Lists, tuples and sets
yield their elements, dicts yield their keys; non-iterable documents raise
`TypeError` (`none`).  Python additionally iterates strings (as
one-character strings) and bytes (as integers); a codec document never has a
string or bytes payload under a container target, and these two pathological
self-referential iterations are not modelled. -/
def iterElems : Doc → Option DList
  | .dlist l => some l
  | .dtuple l => some l
  | .dset l => some l
  | .ddict es => some (entryKeys es)
  | _ => none

/-- Documents supporting `len(doc)` and integer indexing `doc[i]`
(needed by the tuple branch and the positional record branch).  String
indexing (yielding characters) is not modelled, as above. -/
def indexElems : Doc → Option DList
  | .dlist l => some l
  | .dtuple l => some l
  | _ => none

/-- Substring check `name in s` for Python strings (used by the record
branch when the document is a string). -/
def strContains (s pat : String) : Bool :=
  decide (pat.data <:+: s.data)

/-- Membership `name in doc` when the document is a set. -/
def dlMemStr (l : DList) (name : String) : Bool :=
  match l with
  | .nil => false
  | .cons d tl => keyMatches d name || dlMemStr tl name

theorem sizeOf_lookupDE (es : DEntries) (name : String) (d : Doc)
    (h : lookupDE es name = some d) : sizeOf d < sizeOf es := by
  match es with
  | .nil => simp [lookupDE] at h
  | .cons k v tl =>
    simp only [lookupDE] at h
    split at h
    · cases h; simp; omega
    · have := sizeOf_lookupDE tl name d h; simp; omega

theorem sizeOf_entryKeys (es : DEntries) : sizeOf (entryKeys es) ≤ sizeOf es := by
  match es with
  | .nil => simp [entryKeys]
  | .cons k v tl =>
    have := sizeOf_entryKeys tl
    simp [entryKeys]
    have : 0 < sizeOf v := by cases v <;> simp_arith
    omega

theorem sizeOf_iterElems (doc : Doc) (l : DList) (h : iterElems doc = some l) :
    sizeOf l < sizeOf doc := by
  cases doc <;> simp [iterElems] at h <;> subst h <;> simp
  exact lt_of_le_of_lt (sizeOf_entryKeys _) (by omega)

theorem sizeOf_indexElems (doc : Doc) (l : DList) (h : indexElems doc = some l) :
    sizeOf l < sizeOf doc := by
  cases doc <;> simp [indexElems] at h <;> subst h <;> simp

/-- Check whether any declared field name occurs in a string document
(the record branch reached with a string: `name in doc` is a substring
test there). -/
def anyFieldInStr (ftys : TyFields) (s : String) : Bool :=
  match ftys with
  | .nil => false
  | .cons name _ tl => strContains s name || anyFieldInStr tl s

/-- Check whether any declared field name is a member of a set document. -/
def anyFieldMem (ftys : TyFields) (l : DList) : Bool :=
  match ftys with
  | .nil => false
  | .cons name _ tl => dlMemStr l name || anyFieldMem tl l

/-! ## Decoding: `deep_from_dict` (`pymq/typing.py` lines 52–117)

Branches follow the source order: `doc is None`; `type(doc) == cls`
(identity on primitives); the typed generic containers; `Exception`
subclasses; primitive coercion `cls(doc)`; finally the record branch driven
by `get_type_hints(cls)` and `new_instance`.  A Python exception raised
anywhere (unknown generic, `IndexError`, failed coercion, unhashable
element, ...) is modelled as `none`.  Coercions whose result the embedding
cannot express (those producing or consuming the opaque float payload, and
`repr`-based string conversions) are also `none`; no claim depends on them.
`new_instance` constructs an object from the decoded field map; the
constructor-kwargs/`setattr` split of the source produces exactly that
attribute map for record classes. -/

mutual

def deep_from_dict (doc : Doc) (cls : Ty) : Option Value :=
  match doc, cls with
  -- `if doc is None: return doc`
  | .dnone, _ => some .vnone
  -- `if type(doc) == cls: return doc`
  | .dbool b, .tbool => some (.vbool b)
  | .dint n, .tint => some (.vint n)
  | .dfloat f, .tfloat => some (.vfloat f)
  | .dstr s, .tstr => some (.vstr s)
  | .dbytes bs, .tbytes => some (.vbytes bs)
  -- generic alias branches: List, Set, Tuple, Dict
  | doc, .tlist t =>
    match h : iterElems doc with
    | some l => (dfdList l t).map .vlist
    | none => none
  | doc, .tset t =>
    match h : iterElems doc with
    | some l => (dfdSet l t).map .vset
    | none => none
  | doc, .ttuple ts =>
    match h : indexElems doc with
    | some l => (dfdTuple l ts).map .vtuple
    | none => none
  | .ddict es, .tdict kt vt => (dfdEntries es kt vt).map .vdict
  | _, .tdict _ _ => none
  -- `if issubclass(cls, Exception)`
  | .dlist l, .terr ename => some (.verr ename (docListToValues l))
  | .dtuple l, .terr ename => some (.verr ename (docListToValues l))
  | d, .terr ename => some (.verr ename (.cons (docToValue d) .nil))
  -- primitive coercion `cls(doc)` for a primitive doc of a different type
  | .dbool b, .tint => some (.vint (if b then 1 else 0))
  | .dbool b, .tstr => some (.vstr (if b then "True" else "False"))
  | .dbool b, .tbytes => some (.vbytes (if b then [0] else []))
  | .dbool _, .tfloat => none
  | .dint n, .tbool => some (.vbool (n != 0))
  | .dint n, .tstr => some (.vstr (toString n))
  | .dint n, .tbytes =>
    if n < 0 then none else some (.vbytes (List.replicate n.toNat 0))
  | .dint _, .tfloat => none
  | .dfloat _, .tbool | .dfloat _, .tint | .dfloat _, .tstr
  | .dfloat _, .tbytes => none
  | .dstr s, .tbool => some (.vbool (s != ""))
  | .dstr s, .tint => (s.toInt?).map .vint
  | .dstr _, .tfloat | .dstr _, .tbytes => none
  | .dbytes bs, .tbool => some (.vbool (bs != []))
  | .dbytes _, .tint | .dbytes _, .tfloat | .dbytes _, .tstr => none
  -- record branch (`spec = get_type_hints(cls)`, then `new_instance`)
  | .ddict es, .trecord cname ftys => (dfdFieldsByName ftys es).map (.vrecord cname)
  | .dlist l, .trecord cname ftys => (dfdFieldsPos ftys l).map (.vrecord cname)
  | .dtuple l, .trecord cname ftys => (dfdFieldsPos ftys l).map (.vrecord cname)
  | .dstr s, .trecord cname ftys =>
    -- `name not in doc` is a substring test on strings; a hit makes
    -- `doc[name]` raise `TypeError`
    if anyFieldInStr ftys s then none else some (.vrecord cname .nil)
  | .dset l, .trecord cname ftys =>
    -- `name not in doc` is set membership; a hit makes `doc[name]` raise
    if anyFieldMem ftys l then none else some (.vrecord cname .nil)
  -- numeric/bytes docs at a record class: `name not in doc` raises
  | _, .trecord _ _ => none
  -- container docs at a primitive class: `new_instance` fails on builtins
  | _, _ => none
termination_by (sizeOf doc, sizeOf cls)
decreasing_by
  all_goals simp_wf
  all_goals first
    | exact Prod.Lex.left _ _ (sizeOf_iterElems _ _ h)
    | exact Prod.Lex.left _ _ (sizeOf_indexElems _ _ h)
    | (apply Prod.Lex.left; omega)

def dfdList (l : DList) (t : Ty) : Option VList :=
  match l with
  | .nil => some .nil
  | .cons d tl =>
    (deep_from_dict d t).bind fun v => (dfdList tl t).map (.cons v)
termination_by (sizeOf l, sizeOf t)
decreasing_by
  all_goals simp_wf
  all_goals (apply Prod.Lex.left; omega)

def dfdSet (l : DList) (t : Ty) : Option VList :=
  match l with
  | .nil => some .nil
  | .cons d tl =>
    (deep_from_dict d t).bind fun v =>
      if valueHashable v then (dfdSet tl t).map (.cons v) else none
termination_by (sizeOf l, sizeOf t)
decreasing_by
  all_goals simp_wf
  all_goals (apply Prod.Lex.left; omega)

def dfdTuple (l : DList) (ts : TyList) : Option VList :=
  match l, ts with
  | .nil, _ => some .nil
  | .cons _ _, .nil => none  -- IndexError on cls.__args__[i]
  | .cons d dl, .cons t tl =>
    (deep_from_dict d t).bind fun v => (dfdTuple dl tl).map (.cons v)
termination_by (sizeOf l, sizeOf ts)
decreasing_by
  all_goals simp_wf
  all_goals (apply Prod.Lex.left; omega)

def dfdEntries (es : DEntries) (kt vt : Ty) : Option VEntries :=
  match es with
  | .nil => some .nil
  | .cons k v tl =>
    (deep_from_dict k kt).bind fun kv =>
      (deep_from_dict v vt).bind fun vv =>
        (dfdEntries tl kt vt).map (.cons kv vv)
termination_by (sizeOf es, sizeOf kt + sizeOf vt)
decreasing_by
  all_goals simp_wf
  all_goals (apply Prod.Lex.left; omega)

def dfdFieldsPos (ftys : TyFields) (l : DList) : Option VFields :=
  match ftys, l with
  | .nil, _ => some .nil  -- extra positional elements are ignored
  | .cons _ _ _, .nil => none  -- IndexError on doc[i]
  | .cons name t tl, .cons d dl =>
    (deep_from_dict d t).bind fun v => (dfdFieldsPos tl dl).map (.cons name v)
termination_by (sizeOf l, sizeOf ftys)
decreasing_by
  all_goals simp_wf
  all_goals (apply Prod.Lex.left; omega)

def dfdFieldsByName (ftys : TyFields) (es : DEntries) : Option VFields :=
  match ftys with
  | .nil => some .nil
  | .cons name t tl =>
    match h : lookupDE es name with
    | none => dfdFieldsByName tl es  -- `if name not in doc: continue`
    | some d =>
      (deep_from_dict d t).bind fun v =>
        (dfdFieldsByName tl es).map (.cons name v)
termination_by (sizeOf es, sizeOf ftys)
decreasing_by
  all_goals simp_wf
  all_goals first
    | exact Prod.Lex.left _ _ (sizeOf_lookupDE _ _ _ h)
    | (apply Prod.Lex.right; omega)

end

/-! ## Typing of values

`welltyped v t` states that the Python value `v` is an inhabitant of the
declared type `t` — the typing discipline the codec is specified for
(`type_of(v)` in the claim).  Structural invariants of genuine Python
values are part of it: the elements of a `set` are hashable, and the
attribute names of a record instance are exactly its declared type hints in
declaration order.  `None` inhabits every declared type (Python attributes
and arguments may be `None`). -/

mutual

def welltyped : Value → Ty → Bool
  | .vnone, _ => true
  | .vbool _, .tbool => true
  | .vint _, .tint => true
  | .vfloat _, .tfloat => true
  | .vstr _, .tstr => true
  | .vbytes _, .tbytes => true
  | .vlist l, .tlist t => wtList l t
  | .vset l, .tset t => wtList l t && valueHashableList l
  | .vtuple l, .ttuple ts => wtTuple l ts
  | .vdict es, .tdict kt vt => wtEntries es kt vt
  | .vrecord cname fs, .trecord cname2 ftys => cname == cname2 && wtFields fs ftys
  | .verr cname _, .terr cname2 => cname == cname2
  | _, _ => false

def wtList : VList → Ty → Bool
  | .nil, _ => true
  | .cons v tl, t => welltyped v t && wtList tl t

def wtTuple : VList → TyList → Bool
  | .nil, .nil => true
  | .cons v vl, .cons t tl => welltyped v t && wtTuple vl tl
  | _, _ => false

def wtEntries : VEntries → Ty → Ty → Bool
  | .nil, _, _ => true
  | .cons k v tl, kt, vt => welltyped k kt && welltyped v vt && wtEntries tl kt vt

def wtFields : VFields → TyFields → Bool
  | .nil, .nil => true
  | .cons n v vtl, .cons n2 t ttl => n == n2 && welltyped v t && wtFields vtl ttl
  | _, _ => false

end

/-- Attribute names of a record's declared type hints. -/
def fieldNames : TyFields → List String
  | .nil => []
  | .cons n _ tl => n :: fieldNames tl

/-! ## Codec-safe values

`deep_to_dict` / `deep_from_dict` do not restore every encodable value:

* the arguments of an error value are serialized (`deep_to_dict(obj.args)`)
  but never decoded back (`cls(*doc)` keeps the raw documents), so an error
  argument survives only if it is plain data whose document is itself —
  `pureData`;
* a set survives only if its elements are hashable plain data (any other
  element makes the element documents unhashable and `deep_to_dict`
  raises) — `pureHash`;
* dict keys are never transformed, so they must be hashable plain data.

`recordFieldsNodup` is the Python invariant that `get_type_hints` returns
each attribute once. -/

mutual

def pureHash : Value → Bool
  | .vnone => true
  | .vbool _ => true
  | .vint _ => true
  | .vfloat _ => true
  | .vstr _ => true
  | .vbytes _ => true
  | .vtuple l => pureHashList l
  | _ => false

def pureHashList : VList → Bool
  | .nil => true
  | .cons v tl => pureHash v && pureHashList tl

end

mutual

def pureData : Value → Bool
  | .vnone => true
  | .vbool _ => true
  | .vint _ => true
  | .vfloat _ => true
  | .vstr _ => true
  | .vbytes _ => true
  | .vtuple l => pureDataList l
  | .vlist l => pureDataList l
  | .vset l => pureHashList l
  | .vdict es => pureDataEntries es
  | .vrecord _ _ => false
  | .verr _ _ => false

def pureDataList : VList → Bool
  | .nil => true
  | .cons v tl => pureData v && pureDataList tl

def pureDataEntries : VEntries → Bool
  | .nil => true
  | .cons k v tl => pureHash k && pureData v && pureDataEntries tl

end

mutual

def codecSafe : Value → Bool
  | .vnone => true
  | .vbool _ => true
  | .vint _ => true
  | .vfloat _ => true
  | .vstr _ => true
  | .vbytes _ => true
  | .vlist l => codecSafeList l
  | .vtuple l => codecSafeList l
  | .vset l => pureHashList l
  | .vdict es => codecSafeEntries es
  | .vrecord _ fs => codecSafeFields fs
  | .verr _ args => pureDataList args

def codecSafeList : VList → Bool
  | .nil => true
  | .cons v tl => codecSafe v && codecSafeList tl

def codecSafeEntries : VEntries → Bool
  | .nil => true
  | .cons k v tl => pureHash k && codecSafe v && codecSafeEntries tl

def codecSafeFields : VFields → Bool
  | .nil => true
  | .cons _ v tl => codecSafe v && codecSafeFields tl

end

/-! Well-typedness against a type whose record field names are duplicated
cannot arise from Python (`get_type_hints` is a dict); types are restricted
accordingly by `tyFieldsNodup`. -/

mutual

def tyFieldsNodup : Ty → Bool
  | .tbool | .tint | .tfloat | .tstr | .tbytes => true
  | .tlist t => tyFieldsNodup t
  | .tset t => tyFieldsNodup t
  | .ttuple ts => tyListFieldsNodup ts
  | .tdict k v => tyFieldsNodup k && tyFieldsNodup v
  | .trecord _ ftys => decide (fieldNames ftys).Nodup && tyFieldsNodupF ftys
  | .terr _ => true

def tyListFieldsNodup : TyList → Bool
  | .nil => true
  | .cons t tl => tyFieldsNodup t && tyListFieldsNodup tl

def tyFieldsNodupF : TyFields → Bool
  | .nil => true
  | .cons _ t tl => tyFieldsNodup t && tyFieldsNodupF tl

end

/-! ## Unfolding equations of `deep_from_dict` on codec documents -/

theorem dfd_dnone (t : Ty) : deep_from_dict .dnone t = some .vnone := by
  simp [deep_from_dict]

theorem dfd_bool (b : Bool) : deep_from_dict (.dbool b) .tbool = some (.vbool b) := by
  simp [deep_from_dict]

theorem dfd_int (n : Int) : deep_from_dict (.dint n) .tint = some (.vint n) := by
  simp [deep_from_dict]

theorem dfd_float (f : Nat) : deep_from_dict (.dfloat f) .tfloat = some (.vfloat f) := by
  simp [deep_from_dict]

theorem dfd_str (s : String) : deep_from_dict (.dstr s) .tstr = some (.vstr s) := by
  simp [deep_from_dict]

theorem dfd_bytes (bs : List Nat) : deep_from_dict (.dbytes bs) .tbytes = some (.vbytes bs) := by
  simp [deep_from_dict]

theorem dfd_list (dl : DList) (t : Ty) :
    deep_from_dict (.dlist dl) (.tlist t) = (dfdList dl t).map .vlist := by
  simp [deep_from_dict, iterElems]

theorem dfd_set (dl : DList) (t : Ty) :
    deep_from_dict (.dset dl) (.tset t) = (dfdSet dl t).map .vset := by
  simp [deep_from_dict, iterElems]

theorem dfd_tuple (dl : DList) (ts : TyList) :
    deep_from_dict (.dtuple dl) (.ttuple ts) = (dfdTuple dl ts).map .vtuple := by
  simp [deep_from_dict, indexElems]

theorem dfd_dict (es : DEntries) (kt vt : Ty) :
    deep_from_dict (.ddict es) (.tdict kt vt) = (dfdEntries es kt vt).map .vdict := by
  simp [deep_from_dict]

theorem dfd_record (es : DEntries) (n : String) (ftys : TyFields) :
    deep_from_dict (.ddict es) (.trecord n ftys) =
      (dfdFieldsByName ftys es).map (.vrecord n) := by
  simp [deep_from_dict]

theorem dfd_err_tuple (dl : DList) (n : String) :
    deep_from_dict (.dtuple dl) (.terr n) = some (.verr n (docListToValues dl)) := by
  simp [deep_from_dict]

/-! ## Plain-data round trips

For plain hashable data the document of a value is the value itself; these
lemmas make that precise and are the backbone of the set, dict-key and
error-argument cases of the main round-trip theorem. -/

mutual

theorem pureHash_enc (v : Value) (h : pureHash v = true) :
    ∃ d, deep_to_dict v = some d ∧ keyDoc v = some d ∧ docHashable d = true ∧
      docToValue d = v := by
  cases v with
  | vnone => exact ⟨.dnone, rfl, rfl, rfl, rfl⟩
  | vbool b => exact ⟨.dbool b, rfl, rfl, rfl, rfl⟩
  | vint n => exact ⟨.dint n, rfl, rfl, rfl, rfl⟩
  | vfloat f => exact ⟨.dfloat f, rfl, rfl, rfl, rfl⟩
  | vstr s => exact ⟨.dstr s, rfl, rfl, rfl, rfl⟩
  | vbytes bs => exact ⟨.dbytes bs, rfl, rfl, rfl, rfl⟩
  | vtuple l =>
    simp only [pureHash] at h
    obtain ⟨dl, h1, h2, h3, h4⟩ := pureHashList_enc l h
    exact ⟨.dtuple dl, by simp [deep_to_dict, h1], by simp [keyDoc, h2],
      by simp [docHashable, h3], by simp [docToValue, h4]⟩
  | vlist l => simp [pureHash] at h
  | vset l => simp [pureHash] at h
  | vdict es => simp [pureHash] at h
  | vrecord cname fs => simp [pureHash] at h
  | verr cname args => simp [pureHash] at h

theorem pureHashList_enc (l : VList) (h : pureHashList l = true) :
    ∃ dl, encList l = some dl ∧ keyDocList l = some dl ∧
      docHashableList dl = true ∧ docListToValues dl = l := by
  cases l with
  | nil => exact ⟨.nil, rfl, rfl, rfl, rfl⟩
  | cons v tl =>
    simp only [pureHashList, Bool.and_eq_true] at h
    obtain ⟨d, h1, h2, h3, h4⟩ := pureHash_enc v h.1
    obtain ⟨dl, g1, g2, g3, g4⟩ := pureHashList_enc tl h.2
    exact ⟨.cons d dl, by simp [encList, h1, g1], by simp [keyDocList, h2, g2],
      by simp [docHashableList, h3, g3], by simp [docListToValues, h4, g4]⟩

end

mutual

theorem pureData_enc (v : Value) (h : pureData v = true) :
    ∃ d, deep_to_dict v = some d ∧ docToValue d = v := by
  cases v with
  | vnone => exact ⟨.dnone, rfl, rfl⟩
  | vbool b => exact ⟨.dbool b, rfl, rfl⟩
  | vint n => exact ⟨.dint n, rfl, rfl⟩
  | vfloat f => exact ⟨.dfloat f, rfl, rfl⟩
  | vstr s => exact ⟨.dstr s, rfl, rfl⟩
  | vbytes bs => exact ⟨.dbytes bs, rfl, rfl⟩
  | vtuple l =>
    simp only [pureData] at h
    obtain ⟨dl, h1, h2⟩ := pureDataList_enc l h
    exact ⟨.dtuple dl, by simp [deep_to_dict, h1], by simp [docToValue, h2]⟩
  | vlist l =>
    simp only [pureData] at h
    obtain ⟨dl, h1, h2⟩ := pureDataList_enc l h
    exact ⟨.dlist dl, by simp [deep_to_dict, h1], by simp [docToValue, h2]⟩
  | vset l =>
    simp only [pureData] at h
    obtain ⟨dl, h1, h2⟩ := pureSet_enc l h
    exact ⟨.dset dl, by simp [deep_to_dict, h1], by simp [docToValue, h2]⟩
  | vdict es =>
    simp only [pureData] at h
    obtain ⟨des, h1, h2⟩ := pureEntries_enc es h
    exact ⟨.ddict des, by simp [deep_to_dict, h1], by simp [docToValue, h2]⟩
  | vrecord cname fs => simp [pureData] at h
  | verr cname args => simp [pureData] at h

theorem pureDataList_enc (l : VList) (h : pureDataList l = true) :
    ∃ dl, encList l = some dl ∧ docListToValues dl = l := by
  cases l with
  | nil => exact ⟨.nil, rfl, rfl⟩
  | cons v tl =>
    simp only [pureDataList, Bool.and_eq_true] at h
    obtain ⟨d, h1, h2⟩ := pureData_enc v h.1
    obtain ⟨dl, g1, g2⟩ := pureDataList_enc tl h.2
    exact ⟨.cons d dl, by simp [encList, h1, g1], by simp [docListToValues, h2, g2]⟩

theorem pureSet_enc (l : VList) (h : pureHashList l = true) :
    ∃ dl, encSet l = some dl ∧ docListToValues dl = l := by
  cases l with
  | nil => exact ⟨.nil, rfl, rfl⟩
  | cons v tl =>
    simp only [pureHashList, Bool.and_eq_true] at h
    obtain ⟨d, h1, _, h3, h4⟩ := pureHash_enc v h.1
    obtain ⟨dl, g1, g2⟩ := pureSet_enc tl h.2
    exact ⟨.cons d dl, by simp [encSet, h1, h3, g1], by simp [docListToValues, h4, g2]⟩

theorem pureEntries_enc (es : VEntries) (h : pureDataEntries es = true) :
    ∃ des, encEntries es = some des ∧ docEntriesToValues des = es := by
  cases es with
  | nil => exact ⟨.nil, rfl, rfl⟩
  | cons k v tl =>
    simp only [pureDataEntries, Bool.and_eq_true] at h
    obtain ⟨kd, k1, k2, _, k4⟩ := pureHash_enc k h.1.1
    obtain ⟨vd, v1, v2⟩ := pureData_enc v h.1.2
    obtain ⟨des, g1, g2⟩ := pureEntries_enc tl h.2
    exact ⟨.cons kd vd des, by simp [encEntries, k2, v1, g1],
      by simp [docEntriesToValues, k4, v2, g2]⟩

end

mutual

theorem pureHash_valueHashable (v : Value) (h : pureHash v = true) :
    valueHashable v = true := by
  cases v with
  | vtuple l =>
    simp only [pureHash] at h
    simpa [valueHashable] using pureHashList_valueHashable l h
  | vlist l => simp [pureHash] at h
  | vset l => simp [pureHash] at h
  | vdict es => simp [pureHash] at h
  | _ => rfl

theorem pureHashList_valueHashable (l : VList) (h : pureHashList l = true) :
    valueHashableList l = true := by
  cases l with
  | nil => rfl
  | cons v tl =>
    simp only [pureHashList, Bool.and_eq_true] at h
    simp [valueHashableList, pureHash_valueHashable v h.1,
      pureHashList_valueHashable tl h.2]

end

mutual

theorem pureHash_codecSafe (v : Value) (h : pureHash v = true) :
    codecSafe v = true := by
  cases v with
  | vtuple l =>
    simp only [pureHash] at h
    simpa [codecSafe] using pureHashList_codecSafe l h
  | vlist l => simp [pureHash] at h
  | vset l => simp [pureHash] at h
  | vdict es => simp [pureHash] at h
  | vrecord cname fs => simp [pureHash] at h
  | verr cname args => simp [pureHash] at h
  | _ => rfl

theorem pureHashList_codecSafe (l : VList) (h : pureHashList l = true) :
    codecSafeList l = true := by
  cases l with
  | nil => rfl
  | cons v tl =>
    simp only [pureHashList, Bool.and_eq_true] at h
    simp [codecSafeList, pureHash_codecSafe v h.1, pureHashList_codecSafe tl h.2]

end

/-! ## Record decoding: field lookup facts -/

/-- The lookup facts `dfdFieldsByName` relies on: each declared field name
resolves in the entries to the document of the corresponding attribute
value. -/
def FieldsLookup : VFields → TyFields → DEntries → Prop
  | .nil, _, _ => True
  | .cons _ v vtl, .cons n2 _ ttl, es =>
    (∃ d, lookupDE es n2 = some d ∧ deep_to_dict v = some d) ∧
      FieldsLookup vtl ttl es
  | .cons _ _ _, .nil, _ => True

theorem fieldNames_wtFields (fs : VFields) (ftys : TyFields)
    (hw : wtFields fs ftys = true) :
    ∀ n t tl, ftys = TyFields.cons n t tl → ∃ v vtl, fs = VFields.cons n v vtl := by
  intro n t tl hf
  subst hf
  cases fs with
  | nil => simp [wtFields] at hw
  | cons n1 v vtl =>
    simp only [wtFields, Bool.and_eq_true, beq_iff_eq] at hw
    exact ⟨v, vtl, by rw [hw.1.1]⟩

theorem fieldsLookup_mono (fs : VFields) (ftys : TyFields) (k vd : Doc)
    (des : DEntries) (h : FieldsLookup fs ftys des)
    (hne : ∀ m, m ∈ fieldNames ftys → keyMatches k m = false) :
    FieldsLookup fs ftys (.cons k vd des) := by
  match fs, ftys with
  | .nil, _ => trivial
  | .cons _ _ _, .nil => trivial
  | .cons n v vtl, .cons n2 t ttl =>
    obtain ⟨⟨d, hd1, hd2⟩, htl⟩ := h
    refine ⟨⟨d, ?_, hd2⟩, ?_⟩
    · simp [lookupDE, hne n2 (by simp [fieldNames])]
      exact hd1
    · exact fieldsLookup_mono vtl ttl k vd des htl
        (fun m hm => hne m (by simp [fieldNames]; right; exact hm))

theorem fieldsLookup_of_enc (fs : VFields) (ftys : TyFields) (des : DEntries)
    (hw : wtFields fs ftys = true)
    (hnd : (fieldNames ftys).Nodup)
    (henc : encFields fs = some des) :
    FieldsLookup fs ftys des := by
  match fs, ftys with
  | .nil, _ => trivial
  | .cons _ _ _, .nil => trivial
  | .cons n v vtl, .cons n2 t ttl =>
    simp only [wtFields, Bool.and_eq_true, beq_iff_eq] at hw
    obtain ⟨⟨hn, _⟩, hwtl⟩ := hw
    subst hn
    simp only [encFields] at henc
    cases hv : deep_to_dict v with
    | none => simp [hv] at henc
    | some vd =>
      cases htl : encFields vtl with
      | none => simp [hv, htl] at henc
      | some des' =>
        simp only [hv, htl] at henc
        have hdes : des = .cons (.dstr n) vd des' := by
          simp at henc
          exact henc.symm
        subst hdes
        simp only [fieldNames, List.nodup_cons] at hnd
        refine ⟨⟨vd, ?_, hv⟩, ?_⟩
        · simp [lookupDE, keyMatches]
        · exact fieldsLookup_mono vtl ttl (.dstr n) vd des'
            (fieldsLookup_of_enc vtl ttl des' hwtl hnd.2 htl)
            (fun m hm => by
              simp only [keyMatches, beq_eq_false_iff_ne, ne_eq]
              intro he
              subst he
              exact hnd.1 hm)

theorem dfdFieldsByName_cons_some (es : DEntries) (n : String) (t : Ty)
    (tl : TyFields) (d : Doc) (h : lookupDE es n = some d) :
    dfdFieldsByName (.cons n t tl) es =
      (deep_from_dict d t).bind fun v => (dfdFieldsByName tl es).map (.cons n v) := by
  simp only [dfdFieldsByName]
  split
  · next heq => rw [h] at heq; cases heq
  · next d' heq => rw [h] at heq; cases heq; rfl

/-! ## The codec round trip -/

mutual

theorem rt_value (v : Value) (t : Ty) (hw : welltyped v t = true)
    (hs : codecSafe v = true) (hn : tyFieldsNodup t = true) :
    ∃ d, deep_to_dict v = some d ∧ deep_from_dict d t = some v := by
  cases v with
  | vnone => exact ⟨.dnone, rfl, dfd_dnone t⟩
  | vbool b =>
    cases t
    case tbool => exact ⟨.dbool b, rfl, dfd_bool b⟩
    all_goals simp [welltyped] at hw
  | vint n =>
    cases t
    case tint => exact ⟨.dint n, rfl, dfd_int n⟩
    all_goals simp [welltyped] at hw
  | vfloat f =>
    cases t
    case tfloat => exact ⟨.dfloat f, rfl, dfd_float f⟩
    all_goals simp [welltyped] at hw
  | vstr s =>
    cases t
    case tstr => exact ⟨.dstr s, rfl, dfd_str s⟩
    all_goals simp [welltyped] at hw
  | vbytes bs =>
    cases t
    case tbytes => exact ⟨.dbytes bs, rfl, dfd_bytes bs⟩
    all_goals simp [welltyped] at hw
  | vlist l =>
    cases t
    case tlist t1 =>
      simp only [welltyped] at hw
      simp only [codecSafe] at hs
      simp only [tyFieldsNodup] at hn
      obtain ⟨dl, h1, h2⟩ := rt_list l t1 hw hs hn
      exact ⟨.dlist dl, by simp [deep_to_dict, h1], by simp [dfd_list, h2]⟩
    all_goals simp [welltyped] at hw
  | vtuple l =>
    cases t
    case ttuple ts =>
      simp only [welltyped] at hw
      simp only [codecSafe] at hs
      simp only [tyFieldsNodup] at hn
      obtain ⟨dl, h1, h2⟩ := rt_tuple l ts hw hs hn
      exact ⟨.dtuple dl, by simp [deep_to_dict, h1], by simp [dfd_tuple, h2]⟩
    all_goals simp [welltyped] at hw
  | vset l =>
    cases t
    case tset t1 =>
      simp only [welltyped, Bool.and_eq_true] at hw
      simp only [codecSafe] at hs
      simp only [tyFieldsNodup] at hn
      obtain ⟨dl, h1, h2⟩ := rt_set l t1 hw.1 hs hn
      exact ⟨.dset dl, by simp [deep_to_dict, h1], by simp [dfd_set, h2]⟩
    all_goals simp [welltyped] at hw
  | vdict es =>
    cases t
    case tdict kt vt =>
      simp only [welltyped] at hw
      simp only [codecSafe] at hs
      simp only [tyFieldsNodup, Bool.and_eq_true] at hn
      obtain ⟨des, h1, h2⟩ := rt_entries es kt vt hw hs hn.1 hn.2
      exact ⟨.ddict des, by simp [deep_to_dict, h1], by simp [dfd_dict, h2]⟩
    all_goals simp [welltyped] at hw
  | vrecord cname fs =>
    cases t
    case trecord cname2 ftys =>
      simp only [welltyped, Bool.and_eq_true, beq_iff_eq] at hw
      obtain ⟨hc, hwf⟩ := hw
      subst hc
      simp only [codecSafe] at hs
      simp only [tyFieldsNodup, Bool.and_eq_true, decide_eq_true_eq] at hn
      obtain ⟨des, henc⟩ := rt_fields_enc fs ftys hwf hs hn.2
      have hlook := fieldsLookup_of_enc fs ftys des hwf hn.1 henc
      have hdec := rt_fields fs ftys des hwf hs hn.2 hlook
      exact ⟨.ddict des, by simp [deep_to_dict, henc], by simp [dfd_record, hdec]⟩
    all_goals simp [welltyped] at hw
  | verr cname args =>
    cases t
    case terr cname2 =>
      simp only [welltyped, beq_iff_eq] at hw
      subst hw
      simp only [codecSafe] at hs
      obtain ⟨dl, h1, h2⟩ := pureDataList_enc args hs
      exact ⟨.dtuple dl, by simp [deep_to_dict, h1], by simp [dfd_err_tuple, h2]⟩
    all_goals simp [welltyped] at hw

theorem rt_list (l : VList) (t : Ty) (hw : wtList l t = true)
    (hs : codecSafeList l = true) (hn : tyFieldsNodup t = true) :
    ∃ dl, encList l = some dl ∧ dfdList dl t = some l := by
  cases l with
  | nil => exact ⟨.nil, rfl, by simp [dfdList]⟩
  | cons v tl =>
    simp only [wtList, Bool.and_eq_true] at hw
    simp only [codecSafeList, Bool.and_eq_true] at hs
    obtain ⟨d, h1, h2⟩ := rt_value v t hw.1 hs.1 hn
    obtain ⟨dl, g1, g2⟩ := rt_list tl t hw.2 hs.2 hn
    exact ⟨.cons d dl, by simp [encList, h1, g1], by simp [dfdList, h2, g2]⟩

theorem rt_set (l : VList) (t : Ty) (hw : wtList l t = true)
    (hs : pureHashList l = true) (hn : tyFieldsNodup t = true) :
    ∃ dl, encSet l = some dl ∧ dfdSet dl t = some l := by
  cases l with
  | nil => exact ⟨.nil, rfl, by simp [dfdSet]⟩
  | cons v tl =>
    simp only [wtList, Bool.and_eq_true] at hw
    simp only [pureHashList, Bool.and_eq_true] at hs
    obtain ⟨d, e1, _, e3, _⟩ := pureHash_enc v hs.1
    obtain ⟨d', h1, h2⟩ := rt_value v t hw.1 (pureHash_codecSafe v hs.1) hn
    rw [e1] at h1
    cases h1
    obtain ⟨dl, g1, g2⟩ := rt_set tl t hw.2 hs.2 hn
    exact ⟨.cons d dl, by simp [encSet, e1, e3, g1],
      by simp [dfdSet, h2, pureHash_valueHashable v hs.1, g2]⟩

theorem rt_tuple (l : VList) (ts : TyList) (hw : wtTuple l ts = true)
    (hs : codecSafeList l = true) (hn : tyListFieldsNodup ts = true) :
    ∃ dl, encList l = some dl ∧ dfdTuple dl ts = some l := by
  cases l with
  | nil =>
    cases ts with
    | nil => exact ⟨.nil, rfl, by simp [dfdTuple]⟩
    | cons t tl => simp [wtTuple] at hw
  | cons v vl =>
    cases ts with
    | nil => simp [wtTuple] at hw
    | cons t tl =>
      simp only [wtTuple, Bool.and_eq_true] at hw
      simp only [codecSafeList, Bool.and_eq_true] at hs
      simp only [tyListFieldsNodup, Bool.and_eq_true] at hn
      obtain ⟨d, h1, h2⟩ := rt_value v t hw.1 hs.1 hn.1
      obtain ⟨dl, g1, g2⟩ := rt_tuple vl tl hw.2 hs.2 hn.2
      exact ⟨.cons d dl, by simp [encList, h1, g1], by simp [dfdTuple, h2, g2]⟩

theorem rt_entries (es : VEntries) (kt vt : Ty) (hw : wtEntries es kt vt = true)
    (hs : codecSafeEntries es = true) (hnk : tyFieldsNodup kt = true)
    (hnv : tyFieldsNodup vt = true) :
    ∃ des, encEntries es = some des ∧ dfdEntries des kt vt = some es := by
  cases es with
  | nil => exact ⟨.nil, rfl, by simp [dfdEntries]⟩
  | cons k v tl =>
    simp only [wtEntries, Bool.and_eq_true] at hw
    simp only [codecSafeEntries, Bool.and_eq_true] at hs
    obtain ⟨kd, e1, e2, _, _⟩ := pureHash_enc k hs.1.1
    obtain ⟨kd', h1, h2⟩ := rt_value k kt hw.1.1 (pureHash_codecSafe k hs.1.1) hnk
    rw [e1] at h1
    cases h1
    obtain ⟨vd, v1, v2⟩ := rt_value v vt hw.1.2 hs.1.2 hnv
    obtain ⟨des, g1, g2⟩ := rt_entries tl kt vt hw.2 hs.2 hnk hnv
    exact ⟨.cons kd vd des, by simp [encEntries, e2, v1, g1],
      by simp [dfdEntries, h2, v2, g2]⟩

theorem rt_fields_enc (fs : VFields) (ftys : TyFields) (hw : wtFields fs ftys = true)
    (hs : codecSafeFields fs = true) (hnf : tyFieldsNodupF ftys = true) :
    ∃ des, encFields fs = some des := by
  cases fs with
  | nil => exact ⟨.nil, rfl⟩
  | cons n v vtl =>
    cases ftys with
    | nil => simp [wtFields] at hw
    | cons n2 t ttl =>
      simp only [wtFields, Bool.and_eq_true] at hw
      simp only [codecSafeFields, Bool.and_eq_true] at hs
      simp only [tyFieldsNodupF, Bool.and_eq_true] at hnf
      obtain ⟨d, h1, _⟩ := rt_value v t hw.1.2 hs.1 hnf.1
      obtain ⟨des, g1⟩ := rt_fields_enc vtl ttl hw.2 hs.2 hnf.2
      exact ⟨.cons (.dstr n) d des, by simp [encFields, h1, g1]⟩

theorem rt_fields (fs : VFields) (ftys : TyFields) (es : DEntries)
    (hw : wtFields fs ftys = true) (hs : codecSafeFields fs = true)
    (hnf : tyFieldsNodupF ftys = true) (hlook : FieldsLookup fs ftys es) :
    dfdFieldsByName ftys es = some fs := by
  cases fs with
  | nil =>
    cases ftys with
    | nil => simp [dfdFieldsByName]
    | cons n2 t ttl => simp [wtFields] at hw
  | cons n v vtl =>
    cases ftys with
    | nil => simp [wtFields] at hw
    | cons n2 t ttl =>
      simp only [wtFields, Bool.and_eq_true, beq_iff_eq] at hw
      obtain ⟨⟨hn12, hwv⟩, hwtl⟩ := hw
      subst hn12
      simp only [codecSafeFields, Bool.and_eq_true] at hs
      simp only [tyFieldsNodupF, Bool.and_eq_true] at hnf
      obtain ⟨⟨d, hd1, hd2⟩, hltl⟩ := hlook
      obtain ⟨d', e1, e2⟩ := rt_value v t hwv hs.1 hnf.1
      rw [hd2] at e1
      cases e1
      rw [dfdFieldsByName_cons_some es n t ttl d hd1]
      simp [e2, rt_fields vtl ttl es hwtl hs.2 hnf.2 hltl]

end

/-! ## Claim C1: codec round trip -/

/-- A set containing a named record: well-typed and listed as
codec-compatible by the claim (a "nested combination" of a set and a
record), but `deep_to_dict` raises `TypeError` on it — the element's
document is a dict, which cannot be hashed into the document set. -/
def c1CexVal : Value :=
  .vset (.cons (.vrecord "tests.SimpleNested"
    (.cons "name" (.vstr "a") (.cons "value" (.vint 1) .nil))) .nil)

def c1CexTy : Ty :=
  .tset (.trecord "tests.SimpleNested" (.cons "name" .tstr (.cons "value" .tint .nil)))

/-- Claim C1, as stated, is false: for the well-typed set-of-records value
`c1CexVal` (a nested combination of codec-compatible shapes) there is no
document `d` with `decode(encode(v), type_of(v)) == v` — encoding already
fails (`deep_to_dict` raises `TypeError: unhashable type: 'dict'`). -/
theorem c1_codec_round_trip_cex :
    welltyped c1CexVal c1CexTy = true ∧
      ¬ ∃ d, deep_to_dict c1CexVal = some d ∧ deep_from_dict d c1CexTy = some c1CexVal := by
  refine ⟨rfl, ?_⟩
  rintro ⟨d, hd, -⟩
  rw [show deep_to_dict c1CexVal = none from rfl] at hd
  cases hd

/-- C1 (amended).  Codec round trip: for every well-typed codec-compatible
value `v` — primitives, ordered sequences, sets, string/int-keyed mappings,
fixed-arity tuples, named records, error values, and nested combinations of
these — *provided* that set elements and mapping keys are hashable plain
data and that error-value arguments are plain data (`codecSafe`), decoding
the encoding of `v` at `v`'s own type returns a value equal to `v`:
`deep_from_dict (deep_to_dict v) t = v`. -/
theorem c1_codec_round_trip (v : Value) (t : Ty) (hw : welltyped v t = true)
    (hs : codecSafe v = true) (hn : tyFieldsNodup t = true) :
    ∃ d, deep_to_dict v = some d ∧ deep_from_dict d t = some v :=
  rt_value v t hw hs hn

/-- A nested record/set/dict/tuple/error value used to witness `c1_codec_round_trip`. -/
def c1WitVal : Value :=
  .vrecord "tests.Root" (
    .cons "some_int" (.vint 42) (
    .cons "name" (.vstr "jaffa kree") (
    .cons "tags" (.vset (.cons (.vstr "a") (.cons (.vstr "b") .nil))) (
    .cons "pairs" (.vdict (.cons (.vint 1)
      (.vrecord "tests.SimpleNested"
        (.cons "name" (.vstr "a") (.cons "value" (.vint 1) .nil))) .nil)) (
    .cons "tup" (.vtuple (.cons (.vint 7) (.cons (.vstr "x") .nil))) (
    .cons "fail" (.verr "builtins.ValueError" (.cons (.vstr "boom") .nil)) .nil))))))

def c1WitTy : Ty :=
  .trecord "tests.Root" (
    .cons "some_int" .tint (
    .cons "name" .tstr (
    .cons "tags" (.tset .tstr) (
    .cons "pairs" (.tdict .tint (.trecord "tests.SimpleNested"
      (.cons "name" .tstr (.cons "value" .tint .nil)))) (
    .cons "tup" (.ttuple (.cons .tint (.cons .tstr .nil))) (
    .cons "fail" (.terr "builtins.ValueError") .nil))))))

/-- Witness for `c1_codec_round_trip` at a concrete nested value. -/
theorem c1_codec_round_trip_witness :
    ∃ d, deep_to_dict c1WitVal = some d ∧ deep_from_dict d c1WitTy = some c1WitVal :=
  c1_codec_round_trip c1WitVal c1WitTy (by rfl) (by rfl) (by rfl)

/-! ## RPC protocol (`pymq/provider/base.py`, `pymq/core.py`)

`RpcRequest` / `RpcResponse` model the envelopes.  Incoming request
arguments arrive as wire documents (they were JSON-decoded without a
target type); the skeleton decodes each positional argument against the
exposed function's annotations. -/

/-- Python `fullname(o)` (`pymq/typing.py` lines 29–49) on a runtime value:
builtins report their bare class name, user classes their
`module.Qualname`, which record and error values carry in `cls`. -/
def fullname : Value → String
  | .vnone => "NoneType"
  | .vbool _ => "bool"
  | .vint _ => "int"
  | .vfloat _ => "float"
  | .vstr _ => "str"
  | .vbytes _ => "bytes"
  | .vlist _ => "list"
  | .vtuple _ => "tuple"
  | .vset _ => "set"
  | .vdict _ => "dict"
  | .vrecord cname _ => cname
  | .verr cname _ => cname

structure RpcRequest where
  fn : String
  response_channel : String
  args : List Doc
  kwargs : Option Value := none

structure RpcResponse where
  fn : String
  result : Value
  result_type : String
  error : Bool

/-- Stub-side failures (`DefaultStubMethod._invoke` raises). -/
inductive StubError where
  | runtimeError (msg : String)
  | noSuchRemote (channel : String)

/-- Python `str(timeout)` for the stub timeout (`None` or a number of
seconds; modelled as a natural). -/
def timeoutRepr : Option Nat → String
  | none => "None"
  | some n => toString n

/-- The synthetic response appended on a per-wait `Empty`
(`base.py` line 184): result is the 1-tuple of the give-up message,
result type `"TimeoutError"`, error flag set. -/
def timeoutResponse (fn : String) (timeout : Option Nat) : RpcResponse :=
  { fn := fn
    result := .vtuple (.cons (.vstr ("Gave up waiting after " ++ timeoutRepr timeout)) .nil)
    result_type := "TimeoutError"
    error := true }

/-- Outcome of the i-th `queue.get(timeout=...)` on the reply queue:
`some r` when a response arrived in time, `none` when the wait expired
with `Empty`. -/
def collectResponses (gets : Nat → Option RpcResponse) (fn : String)
    (timeout : Option Nat) (n : Nat) : List RpcResponse :=
  (List.range n).map fun i =>
    match gets i with
    | some r => r
    | none => timeoutResponse fn timeout

/-- `DefaultStubMethod._invoke` (`base.py` lines 159–192): publish returns
the recipient count `n`; `None` is a bus implementation error, `0` raises
`NoSuchRemoteError`; otherwise up to `n` responses are read from the
reply queue (single mode returns after the first), a per-wait `Empty`
being replaced by the synthetic timeout response. -/
def stubInvoke (n : Option Nat) (gets : Nat → Option RpcResponse)
    (fn : String) (timeout : Option Nat) (multi : Bool) :
    Except StubError (Sum RpcResponse (List RpcResponse)) :=
  match n with
  | none =>
    .error (.runtimeError
      "Implementation error in bus: publish returned None instead of subscriber count")
  | some n =>
    if n = 0 then .error (.noSuchRemote fn)
    else if multi then .ok (.inr (collectResponses gets fn timeout n))
    else .ok (.inl (match gets 0 with
                    | some r => r
                    | none => timeoutResponse fn timeout))

/-- The structured `RemoteInvocationError(result_type, *args)` the stub
builds from an error response. -/
structure RemoteInvocationErrorV where
  result_type : String
  args : VList

/-- Python `*response.result` unpacking for the error branch of
`_unmarshal`: an exception contributes its `args`, list/tuple/set their
elements (string unpacking is not modelled, as before). -/
def starList : Value → Option VList
  | .verr _ args => some args
  | .vtuple l => some l
  | .vlist l => some l
  | .vset l => some l
  | _ => none

inductive UnmarshalResult where
  | value (v : Value)
  | errObj (e : RemoteInvocationErrorV)

inductive CallFailure where
  | raisedRemote (e : RemoteInvocationErrorV)
  | raisedRuntime (msg : String)
  | pyError

mutual

/-- Partial inverse of `docToValue`: the document a plain-data value
already is.  Records and errors are not documents. -/
def valueAsDoc : Value → Option Doc
  | .vnone => some .dnone
  | .vbool b => some (.dbool b)
  | .vint n => some (.dint n)
  | .vfloat f => some (.dfloat f)
  | .vstr s => some (.dstr s)
  | .vbytes bs => some (.dbytes bs)
  | .vlist l => (valuesAsDocs l).map .dlist
  | .vtuple l => (valuesAsDocs l).map .dtuple
  | .vset l => (valuesAsDocs l).map .dset
  | .vdict es => (valueEntriesAsDocs es).map .ddict
  | .vrecord _ _ => none
  | .verr _ _ => none

def valuesAsDocs : VList → Option DList
  | .nil => some .nil
  | .cons v tl => (valueAsDoc v).bind fun d => (valuesAsDocs tl).map (.cons d)

def valueEntriesAsDocs : VEntries → Option DEntries
  | .nil => some .nil
  | .cons k v tl =>
    (valueAsDoc k).bind fun kd =>
      (valueAsDoc v).bind fun vd =>
        (valueEntriesAsDocs tl).map (.cons kd vd)

end

/-- `DefaultStubMethod._unmarshal` (`base.py` lines 139–151): an error
response becomes a `RemoteInvocationError` (raised in single mode,
returned in multi mode); a success response is decoded at
`load_class(result_type)` (modelled by the environment `env`).  A
success result that is not a wire document (an in-process object, which
`deep_from_dict` would return unchanged through its `type(doc) == cls`
branch) is outside the wire model and maps to `pyError`; no claim
depends on that corner. -/
def unmarshal (env : String → Option Ty) (r : RpcResponse) (raiseErr : Bool) :
    Except CallFailure UnmarshalResult :=
  if r.error then
    match starList r.result with
    | none => .error .pyError
    | some args =>
      if raiseErr then .error (.raisedRemote ⟨r.result_type, args⟩)
      else .ok (.errObj ⟨r.result_type, args⟩)
  else
    match env r.result_type with
    | none => .error .pyError
    | some t =>
      match valueAsDoc r.result with
      | none => .error .pyError
      | some d =>
        match deep_from_dict d t with
        | some v => .ok (.value v)
        | none => .error .pyError

inductive CallResult where
  | single (r : Option UnmarshalResult)
  | many (rs : List UnmarshalResult)

/-- `DefaultStubMethod.__call__` (`base.py` lines 124–133): `rpc` wrapped
in a `try/except NoSuchRemoteError` returning `None` (empty list in multi
mode); otherwise responses are unmarshalled — raising on error in single
mode, collecting error objects in multi mode. -/
def stubCall (env : String → Option Ty) (n : Option Nat)
    (gets : Nat → Option RpcResponse) (fn : String) (timeout : Option Nat)
    (multi : Bool) : Except CallFailure CallResult :=
  match stubInvoke n gets fn timeout multi with
  | .error (.noSuchRemote _) => .ok (if multi then .many [] else .single none)
  | .error (.runtimeError m) => .error (.raisedRuntime m)
  | .ok (.inl r) => (unmarshal env r true).map (fun u => .single (some u))
  | .ok (.inr rs) => (rs.mapM (fun r => unmarshal env r false)).map .many

/-! ## Claim C2: RPC no-remote behavior -/

/-- C2.  When publishing the request reaches `n == 0` recipients, the
`rpc` form raises `NoSuchRemoteError` (in both modes), while the plain
calling form catches it and returns `None` — an empty list in multi
mode — without raising. -/
theorem c2_rpc_no_remote (env : String → Option Ty)
    (gets : Nat → Option RpcResponse) (fn : String) (timeout : Option Nat) :
    stubInvoke (some 0) gets fn timeout false = .error (.noSuchRemote fn) ∧
    stubInvoke (some 0) gets fn timeout true = .error (.noSuchRemote fn) ∧
    stubCall env (some 0) gets fn timeout false = .ok (.single none) ∧
    stubCall env (some 0) gets fn timeout true = .ok (.many []) := by
  refine ⟨rfl, rfl, ?_, ?_⟩ <;> simp [stubCall, stubInvoke]

/-! ## Claim C3: RPC timeout behavior -/

/-- C3.  With `n ≥ 1` expected responses, every per-response wait that
expires contributes the synthetic error response (result type
`"TimeoutError"`, error flag set) in place of the propagated `Empty`; in
single mode an expired first wait makes the plain call surface it as a
raised `RemoteInvocationError` carrying the `TimeoutError` payload. -/
theorem c3_rpc_timeout (env : String → Option Ty)
    (gets : Nat → Option RpcResponse) (fn : String) (timeout : Option Nat)
    (k : Nat) (hk : 1 ≤ k) :
    ((timeoutResponse fn timeout).result_type = "TimeoutError" ∧
      (timeoutResponse fn timeout).error = true) ∧
    (∀ i, i < k → gets i = none →
      (collectResponses gets fn timeout k)[i]? = some (timeoutResponse fn timeout)) ∧
    (gets 0 = none →
      stubInvoke (some k) gets fn timeout false = .ok (.inl (timeoutResponse fn timeout)) ∧
      stubCall env (some k) gets fn timeout false =
        .error (.raisedRemote ⟨"TimeoutError",
          .cons (.vstr ("Gave up waiting after " ++ timeoutRepr timeout)) .nil⟩)) := by
  refine ⟨⟨rfl, rfl⟩, ?_, ?_⟩
  · intro i hi hg
    simp [collectResponses, List.getElem?_map, List.getElem?_range, hi, hg]
  · intro h0
    have hne : ¬ (k = 0) := by omega
    constructor
    · simp [stubInvoke, hne, h0]
    · simp [stubCall, stubInvoke, hne, h0, unmarshal, timeoutResponse, starList,
        Except.map]

/-- Witness for `c3_rpc_timeout`: one expected response, the single wait
expires. -/
theorem c3_rpc_timeout_witness :
    ((timeoutResponse "f" (some 1)).result_type = "TimeoutError" ∧
      (timeoutResponse "f" (some 1)).error = true) ∧
    (∀ i, i < 1 → (fun _ => (none : Option RpcResponse)) i = none →
      (collectResponses (fun _ => none) "f" (some 1) 1)[i]? =
        some (timeoutResponse "f" (some 1))) ∧
    ((fun _ => (none : Option RpcResponse)) 0 = none →
      stubInvoke (some 1) (fun _ => none) "f" (some 1) false =
        .ok (.inl (timeoutResponse "f" (some 1))) ∧
      stubCall (fun _ => none) (some 1) (fun _ => none) "f" (some 1) false =
        .error (.raisedRemote ⟨"TimeoutError",
          .cons (.vstr ("Gave up waiting after " ++ timeoutRepr (some 1))) .nil⟩)) :=
  c3_rpc_timeout (fun _ => none) (fun _ => none) "f" (some 1) 1 (by decide)

/-! ## Skeleton side (`DefaultSkeletonMethod`, `base.py` lines 203–254) -/

/-- The introspected signature of the exposed function: the positional
parameter names (`spec.args`) and the annotation table
(`spec.annotations`). -/
structure FnSpec where
  args : List String
  annots : List (String × Ty)

def lookupAnnot (l : List (String × Ty)) (n : String) : Option Ty :=
  match l with
  | [] => none
  | (m, t) :: tl => if m = n then some t else lookupAnnot tl n

/-- The argument-conversion loop
(`for i in range(min(len(request.args), len(spec.args)))`): the i-th wire
document is decoded at the i-th parameter's annotation when present, and
passed through unchanged otherwise.  A decoding exception propagates. -/
def decodeArgs (annots : List (String × Ty)) :
    List String → List Doc → Option (List Value)
  | _, [] => some []
  | [], _ => some []
  | p :: ps, d :: ds =>
    let v? := match lookupAnnot annots p with
              | some t => deep_from_dict d t
              | none => some (docToValue d)
    v?.bind fun v => (decodeArgs annots ps ds).map (v :: ·)

/-- `spec.args` after the `if spec.args[0] == 'self': spec.args.remove('self')`
adjustment for bound methods. -/
def effectiveParams (args : List String) : List String :=
  match args with
  | [] => []
  | a :: rest => if a = "self" then rest else a :: rest

inductive SkelExc where
  | typeError (msg : String)
  | decodeFailed
  | appRaised (cls : String) (args : VList)

def typeErrorMsg (fn : String) (n : Nat) : String :=
  fn ++ " takes 0 positional arguments but " ++ toString n ++ " were given"

/-- `DefaultSkeletonMethod._invoke` (`base.py` lines 230–254).  The exposed
callable is abstracted as `fnBeh`, either returning a value or raising an
exception of some class and argument tuple. -/
def skeletonInvoke (spec : FnSpec) (fnBeh : List Value → Except (String × VList) Value)
    (req : RpcRequest) : Except SkelExc Value :=
  match spec.args with
  | [] =>
    if req.args.isEmpty then
      match fnBeh [] with
      | .ok v => .ok v
      | .error e => .error (.appRaised e.1 e.2)
    else .error (.typeError (typeErrorMsg req.fn req.args.length))
  | a :: rest =>
    match decodeArgs spec.annots (effectiveParams (a :: rest)) req.args with
    | none => .error .decodeFailed
    | some vs =>
      match fnBeh vs with
      | .ok v => .ok v
      | .error e => .error (.appRaised e.1 e.2)

/-- `DefaultSkeletonMethod.__call__` (`base.py` lines 217–225): the result
is wrapped in a response tagged with `fullname(result)`; an exception
becomes an error response carrying the exception and its class name.  A
raised decoding error also becomes an error response, but its class is
whatever `deep_from_dict` raised, which the embedding does not track
(`none`). -/
def skeletonCall (spec : FnSpec) (fnBeh : List Value → Except (String × VList) Value)
    (req : RpcRequest) : Option RpcResponse :=
  match skeletonInvoke spec fnBeh req with
  | .ok v => some { fn := req.fn, result := v, result_type := fullname v, error := false }
  | .error (.typeError msg) =>
    some { fn := req.fn, result := .verr "TypeError" (.cons (.vstr msg) .nil)
           result_type := "TypeError", error := true }
  | .error (.appRaised cname args) =>
    some { fn := req.fn, result := .verr cname args, result_type := cname, error := true }
  | .error .decodeFailed => none

theorem decodeArgs_take (annots : List (String × Ty)) (ps : List String)
    (ds : List Doc) :
    decodeArgs annots ps ds = decodeArgs annots ps (ds.take ps.length) := by
  induction ps generalizing ds with
  | nil => cases ds <;> rfl
  | cons p ps ih =>
    cases ds with
    | nil => rfl
    | cons d ds => simp [decodeArgs, ih ds]

/-! ## Claim C10: skeleton argument-count asymmetry -/

/-- C10.  An incoming request with more positional arguments than the
exposed function's declared parameters is served by silently dropping the
extras — the invocation is identical to that of the request truncated to
the first `len(params)` arguments; whereas a function with zero declared
parameters turns any positional argument into a `TypeError`, which the
skeleton wraps as an error response. -/
theorem c10_skeleton_arg_asymmetry (spec : FnSpec)
    (fnBeh : List Value → Except (String × VList) Value) (req : RpcRequest) :
    (spec.args ≠ [] →
      skeletonInvoke spec fnBeh req =
        skeletonInvoke spec fnBeh
          { req with args := req.args.take (effectiveParams spec.args).length }) ∧
    (spec.args = [] → req.args ≠ [] →
      skeletonInvoke spec fnBeh req =
        .error (.typeError (typeErrorMsg req.fn req.args.length)) ∧
      skeletonCall spec fnBeh req =
        some { fn := req.fn
               result := .verr "TypeError"
                 (.cons (.vstr (typeErrorMsg req.fn req.args.length)) .nil)
               result_type := "TypeError", error := true }) := by
  constructor
  · intro hne
    obtain ⟨a, rest, h⟩ : ∃ a rest, spec.args = a :: rest := by
      cases hsa : spec.args with
      | nil => exact absurd hsa hne
      | cons a rest => exact ⟨a, rest, rfl⟩
    simp only [skeletonInvoke, h]
    rw [decodeArgs_take spec.annots (effectiveParams (a :: rest)) req.args]
  · intro h0 hargs
    have : ¬ req.args.isEmpty := by
      simp only [List.isEmpty_eq_true]
      exact hargs
    constructor
    · simp [skeletonInvoke, h0, this]
    · simp [skeletonCall, skeletonInvoke, h0, this]

/-- Witness for `c10_skeleton_arg_asymmetry`: a one-parameter function
called with three arguments (extras dropped), and a zero-parameter
function called with one argument (`TypeError` error response). -/
theorem c10_skeleton_arg_asymmetry_witness :
    (let spec : FnSpec := ⟨["x"], [("x", .tint)]⟩
     let fnBeh : List Value → Except (String × VList) Value := fun vs =>
       .ok (.vint (Int.ofNat vs.length))
     let req : RpcRequest := ⟨"tests.f", "__rpc_q", [.dint 1, .dint 2, .dint 3], none⟩
     skeletonInvoke spec fnBeh req =
       skeletonInvoke spec fnBeh { req with args := [.dint 1] } ∧
     skeletonInvoke spec fnBeh req = .ok (.vint 1)) ∧
    (let spec0 : FnSpec := ⟨[], []⟩
     let fnBeh0 : List Value → Except (String × VList) Value := fun _ => .ok .vnone
     let req0 : RpcRequest := ⟨"tests.g", "__rpc_q", [.dint 1], none⟩
     skeletonCall spec0 fnBeh0 req0 =
       some { fn := "tests.g"
              result := .verr "TypeError"
                (.cons (.vstr (typeErrorMsg "tests.g" 1)) .nil)
              result_type := "TypeError", error := true }) := by
  refine ⟨⟨?_, ?_⟩, ?_⟩
  · exact (c10_skeleton_arg_asymmetry ⟨["x"], [("x", .tint)]⟩
      (fun vs => .ok (.vint (Int.ofNat vs.length)))
      ⟨"tests.f", "__rpc_q", [.dint 1, .dint 2, .dint 3], none⟩).1 (by simp)
  · simp [skeletonInvoke, effectiveParams, decodeArgs, lookupAnnot, dfd_int]
  · exact ((c10_skeleton_arg_asymmetry ⟨[], []⟩ (fun _ => .ok .vnone)
      ⟨"tests.g", "__rpc_q", [.dint 1], none⟩).2 rfl (by simp)).2

/-! ## Subscriber registry and exposed-function map
(`AbstractEventBus`, `base.py` lines 257–338)

Callbacks (listener functions, skeleton objects) are identified by Python
object identity, modelled as naturals.  Python dicts are association lists
in insertion order: assignment replaces in place or appends, `del` removes
the entry. -/

abbrev Callback := Nat

def alookup {α β : Type} [DecidableEq α] (l : List (α × β)) (k : α) : Option β :=
  match l with
  | [] => none
  | (k2, b) :: tl => if k2 = k then some b else alookup tl k

def aset {α β : Type} [DecidableEq α] (l : List (α × β)) (k : α) (b : β) :
    List (α × β) :=
  match l with
  | [] => [(k, b)]
  | (k2, b2) :: tl => if k2 = k then (k, b) :: tl else (k2, b2) :: aset tl k b

def aremoveKey {α β : Type} [DecidableEq α] (l : List (α × β)) (k : α) :
    List (α × β) :=
  match l with
  | [] => []
  | (k2, b2) :: tl => if k2 = k then tl else (k2, b2) :: aremoveKey tl k

/-- Python `list.remove(x)`: drop the first element `== x`; absent `x`
raises `ValueError` (`none`). -/
def listRemoveFirst (l : List Callback) (cb : Callback) : Option (List Callback) :=
  match l with
  | [] => none
  | c :: tl =>
    if c = cb then some tl
    else (listRemoveFirst tl cb).map (c :: ·)

structure BusState where
  subscribers : List ((String × Bool) × List Callback)
  remote_fns : List (String × Callback)

/-- `AbstractEventBus.subscribe` (`base.py` lines 275–283) with an explicit
channel: `self._subscribers[(channel, pattern)].append(callback)` on the
defaultdict. -/
def busSubscribe (st : BusState) (cb : Callback) (ch : String) (pat : Bool) :
    BusState :=
  { st with
    subscribers :=
      aset st.subscribers (ch, pat)
        ((alookup st.subscribers (ch, pat)).getD [] ++ [cb]) }

/-- `AbstractEventBus.unsubscribe` (`base.py` lines 285–297): a missing or
empty bucket is skipped (`if callbacks:`); otherwise `callbacks.remove`
drops the first occurrence — raising `ValueError` (`none`) when the
callback is not registered there — and an emptied bucket is deleted. -/
def busUnsubscribe (st : BusState) (cb : Callback) (ch : String) (pat : Bool) :
    Option BusState :=
  match alookup st.subscribers (ch, pat) with
  | none => some st
  | some [] => some st
  | some cbs =>
    match listRemoveFirst cbs cb with
    | none => none
    | some [] =>
      some { st with subscribers := aremoveKey st.subscribers (ch, pat) }
    | some cbs2 =>
      some { st with subscribers := aset st.subscribers (ch, pat) cbs2 }

/-- `AbstractEventBus.expose` (`base.py` lines 311–323) with an explicit
channel; `skeleton` is the identity of the freshly created
`DefaultSkeletonMethod`.  An already-exposed channel raises `ValueError`
before any mutation (the state component of the pair is returned
unchanged together with the message). -/
def busExpose (st : BusState) (ch : String) (skeleton : Callback) :
    BusState × Option String :=
  match alookup st.remote_fns ch with
  | some _ => (st, some ("Function on channel " ++ ch ++ " already exposed"))
  | none =>
    (busSubscribe { st with remote_fns := aset st.remote_fns ch skeleton }
      skeleton ch false, none)

/-- Modelled from the spec: `unexpose` is re-exported by `pymq/__init__.py`
from `pymq.core`, whose current revision is not in the source tree (the
`pymq/core.py` present is an older revision without it).  Spec §4.7:
"`unexpose(channel_or_fn)` removes the subscription and frees the channel
name for reuse."  The skeleton registered for the channel is unsubscribed
and the exposed-function entry deleted; an unknown channel is a no-op. -/
def busUnexpose (st : BusState) (ch : String) : Option BusState :=
  match alookup st.remote_fns ch with
  | none => some st
  | some sk =>
    (busUnsubscribe st sk ch false).map fun st2 =>
      { st2 with remote_fns := aremoveKey st2.remote_fns ch }

/-- `SimpleEventBus._publish` (`provider/simple.py` lines 40–53): the
recipient count is the number of callbacks in the exact-match bucket. -/
def publishCount (st : BusState) (ch : String) : Nat :=
  ((alookup st.subscribers (ch, false)).getD []).length

/-! Association-list lemmas used by the registry claims. -/

theorem alookup_none_aset {α β : Type} [DecidableEq α] (l : List (α × β))
    (k : α) (b : β) (h : alookup l k = none) : aset l k b = l ++ [(k, b)] := by
  induction l with
  | nil => rfl
  | cons hd tl ih =>
    obtain ⟨k2, b2⟩ := hd
    simp only [alookup] at h
    split at h
    · cases h
    · next hne => simp [aset, hne, ih h]

theorem alookup_append_one {α β : Type} [DecidableEq α] (l : List (α × β))
    (k : α) (b : β) (h : alookup l k = none) : alookup (l ++ [(k, b)]) k = some b := by
  induction l with
  | nil => simp [alookup]
  | cons hd tl ih =>
    obtain ⟨k2, b2⟩ := hd
    simp only [alookup] at h
    split at h
    · cases h
    · next hne => simp [alookup, hne, ih h]

theorem aremoveKey_append_one {α β : Type} [DecidableEq α] (l : List (α × β))
    (k : α) (b : β) (h : alookup l k = none) : aremoveKey (l ++ [(k, b)]) k = l := by
  induction l with
  | nil => simp [aremoveKey]
  | cons hd tl ih =>
    obtain ⟨k2, b2⟩ := hd
    simp only [alookup] at h
    split at h
    · cases h
    · next hne => simp [aremoveKey, hne, ih h]

theorem alookup_aremoveKey_self {α β : Type} [DecidableEq α]
    (l : List (α × β)) (k : α) (hnd : (l.map Prod.fst).Nodup) :
    alookup (aremoveKey l k) k = none := by
  induction l with
  | nil => rfl
  | cons hd tl ih =>
    obtain ⟨k2, b2⟩ := hd
    simp only [List.map_cons, List.nodup_cons] at hnd
    simp only [aremoveKey]
    split
    · next he =>
      subst he
      cases htl : alookup tl k2 with
      | none => rfl
      | some b =>
        exfalso
        apply hnd.1
        clear ih hnd
        induction tl with
        | nil => simp [alookup] at htl
        | cons hd2 tl2 ih2 =>
          obtain ⟨k3, b3⟩ := hd2
          simp only [alookup] at htl
          split at htl
          · next he2 => simp [he2]
          · simp only [List.map_cons, List.mem_cons]
            exact Or.inr (ih2 htl)
    · next hne => simp [alookup, hne, ih hnd.2]

theorem listRemoveFirst_first (pre post : List Callback) (cb : Callback)
    (h : cb ∉ pre) : listRemoveFirst (pre ++ cb :: post) cb = some (pre ++ post) := by
  induction pre with
  | nil => simp [listRemoveFirst]
  | cons c tl ih =>
    simp only [List.mem_cons, not_or] at h
    have hcc : ¬ c = cb := fun he => h.1 he.symm
    simp [listRemoveFirst, hcc, ih h.2]

/-! ## Claim C7: unsubscribe semantics -/

/-- A registry holding one callback (identity 1) on channel `"ch"`. -/
def c7CexState : BusState := ⟨[(("ch", false), [1])], []⟩

/-- Claim C7, as stated, is false: unsubscribing a callback that is absent
from an *existing* bucket does not return silently — `callbacks.remove`
raises `ValueError` (the bucket for `"ch"` exists and holds callback 1,
and unsubscribing callback 2 fails). -/
theorem c7_unsubscribe_cex :
    alookup c7CexState.subscribers ("ch", false) = some [1] ∧
      busUnsubscribe c7CexState 2 "ch" false = none := ⟨rfl, rfl⟩

/-- C7 (amended).  `unsubscribe` removes exactly the first matching entry
of the `(channel, pattern)` bucket; if the callback list becomes empty the
bucket itself is removed; and unsubscribing with the bucket *absent*
returns silently with the registry unchanged.  (Unsubscribing a callback
missing from an existing bucket, however, raises `ValueError`, per
`c7_unsubscribe_cex`.) -/
theorem c7_unsubscribe_semantics (st : BusState) (cb : Callback) (ch : String)
    (pat : Bool) :
    (alookup st.subscribers (ch, pat) = none → busUnsubscribe st cb ch pat = some st) ∧
    (∀ pre post, alookup st.subscribers (ch, pat) = some (pre ++ cb :: post) →
      cb ∉ pre →
      busUnsubscribe st cb ch pat = some
        { st with subscribers :=
            if pre ++ post = [] then aremoveKey st.subscribers (ch, pat)
            else aset st.subscribers (ch, pat) (pre ++ post) }) := by
  constructor
  · intro h
    simp [busUnsubscribe, h]
  · intro pre post h hpre
    have hrm := listRemoveFirst_first pre post cb hpre
    cases hpp : pre ++ post with
    | nil =>
      rw [hpp] at hrm
      cases pre with
      | nil =>
        cases post with
        | nil => simp_all [busUnsubscribe, listRemoveFirst]
        | cons x xs => simp at hpp
      | cons x xs => simp at hpp
    | cons x xs =>
      rw [hpp] at hrm
      cases hb : pre ++ cb :: post with
      | nil => cases pre <;> simp at hb
      | cons y ys =>
        rw [hb] at h hrm
        simp only [busUnsubscribe, h]
        simp [hrm, hpp]

/-- A registry with one bucket `[5, 7, 5]` on channel `"a"`. -/
def c7WitState : BusState := ⟨[(("a", false), [5, 7, 5])], []⟩

/-- Witness for `c7_unsubscribe_semantics`: the bucket `[5, 7, 5]` loses
exactly its first `7` (becoming `[5, 5]`), and unsubscribing on the absent
channel `"b"` is tolerated silently. -/
theorem c7_unsubscribe_semantics_witness :
    busUnsubscribe c7WitState 7 "b" false = some c7WitState ∧
    busUnsubscribe c7WitState 7 "a" false =
      some ⟨[(("a", false), [5, 5])], []⟩ := by
  constructor
  · exact (c7_unsubscribe_semantics c7WitState 7 "b" false).1 rfl
  · have h := (c7_unsubscribe_semantics c7WitState 7 "a" false).2 [5] [5] rfl
      (by decide)
    rw [h]
    rfl

/-! ## Claim C5: expose-conflict invariant -/

/-- States reachable through the registry operations from a fresh bus
(`AbstractEventBus.__init__`: empty subscribers, empty remote functions).
A failed `expose` leaves the state unchanged, so it introduces no new
state. -/
inductive ReachableBus : BusState → Prop where
  | init : ReachableBus ⟨[], []⟩
  | subscribe (st : BusState) (cb : Callback) (ch : String) (pat : Bool) :
      ReachableBus st → ReachableBus (busSubscribe st cb ch pat)
  | unsubscribe (st st2 : BusState) (cb : Callback) (ch : String) (pat : Bool) :
      ReachableBus st → busUnsubscribe st cb ch pat = some st2 → ReachableBus st2
  | expose (st st2 : BusState) (ch : String) (sk : Callback) :
      ReachableBus st → busExpose st ch sk = (st2, none) → ReachableBus st2
  | unexpose (st st2 : BusState) (ch : String) :
      ReachableBus st → busUnexpose st ch = some st2 → ReachableBus st2

theorem busUnsubscribe_remote_fns (st st2 : BusState) (cb : Callback)
    (ch : String) (pat : Bool) (h : busUnsubscribe st cb ch pat = some st2) :
    st2.remote_fns = st.remote_fns := by
  simp only [busUnsubscribe] at h
  split at h
  · cases h; rfl
  · cases h; rfl
  · split at h
    · cases h
    · cases h; rfl
    · cases h; rfl

theorem alookup_none_not_mem {α β : Type} [DecidableEq α] (l : List (α × β))
    (k : α) (h : alookup l k = none) : k ∉ l.map Prod.fst := by
  induction l with
  | nil => simp
  | cons hd tl ih =>
    obtain ⟨k2, b2⟩ := hd
    simp only [alookup] at h
    split at h
    · cases h
    · next hne =>
      simp only [List.map_cons, List.mem_cons, not_or]
      exact ⟨fun he => hne he.symm, ih h⟩

theorem aremoveKey_map_fst_sublist {α β : Type} [DecidableEq α]
    (l : List (α × β)) (k : α) :
    ((aremoveKey l k).map Prod.fst).Sublist (l.map Prod.fst) := by
  induction l with
  | nil => simp [aremoveKey]
  | cons hd tl ih =>
    obtain ⟨k2, b2⟩ := hd
    simp only [aremoveKey]
    split
    · exact (List.sublist_cons_self _ _)
    · simpa using ih.cons₂ k2

/-- C5.  In every reachable registry state the exposed-function map binds
each channel at most once, and calling `expose` on an already-exposed
channel raises the conflict `ValueError` ("Function on channel ... already
exposed") leaving the exposed-function map and the subscriber registry
unchanged. -/
theorem c5_expose_conflict :
    (∀ st, ReachableBus st → (st.remote_fns.map Prod.fst).Nodup) ∧
    (∀ (st : BusState) (ch : String) (sk b : Callback),
      alookup st.remote_fns ch = some b →
      busExpose st ch sk =
        (st, some ("Function on channel " ++ ch ++ " already exposed"))) := by
  constructor
  · intro st h
    induction h with
    | init => simp
    | subscribe st cb ch pat _ ih => simpa [busSubscribe] using ih
    | unsubscribe st st2 cb ch pat _ he ih =>
      rw [busUnsubscribe_remote_fns st st2 cb ch pat he]
      exact ih
    | expose st st2 ch sk _ he ih =>
      simp only [busExpose] at he
      split at he
      · injection he with he1 he2
        cases he2
      · next hnone =>
        injection he with he1 he2
        subst he1
        simp only [busSubscribe, alookup_none_aset _ _ _ hnone]
        simp only [List.map_append, List.map_cons, List.map_nil]
        rw [List.nodup_append]
        exact ⟨ih, List.nodup_singleton _,
          by simpa using fun hm => alookup_none_not_mem _ _ hnone hm⟩
    | unexpose st st2 ch _ he ih =>
      simp only [busUnexpose] at he
      split at he
      · cases he; exact ih
      · next sk hsk =>
        simp only [Option.map_eq_some'] at he
        obtain ⟨st3, h3, h4⟩ := he
        subst h4
        have := busUnsubscribe_remote_fns st st3 sk ch false h3
        exact ((aremoveKey_map_fst_sublist st3.remote_fns ch).nodup
          (this ▸ ih))
  · intro st ch sk b h
    simp [busExpose, h]

/-- Witness for `c5_expose_conflict`: one successful expose from the fresh
bus, then a conflicting expose on the same channel. -/
theorem c5_expose_conflict_witness :
    ((BusState.mk [(("c", false), [1])] [("c", 1)]).remote_fns.map Prod.fst).Nodup ∧
    busExpose (BusState.mk [(("c", false), [1])] [("c", 1)]) "c" 2 =
      (BusState.mk [(("c", false), [1])] [("c", 1)],
        some "Function on channel c already exposed") :=
  ⟨c5_expose_conflict.1 _
      (ReachableBus.expose ⟨[], []⟩ _ "c" 1 ReachableBus.init rfl),
   c5_expose_conflict.2 _ "c" 2 1 rfl⟩

/-! ## Claim C4: expose/unexpose cycle -/

/-- C4.  On a channel with no prior subscribers and no exposed function:
`expose` succeeds; `unexpose` removes the skeleton's subscription and the
exposed-function entry, restoring the original state (the channel name is
free for reuse); a stub call issued in between sees a recipient count of
zero and raises `NoSuchRemoteError`; and re-exposing a new function on the
same channel succeeds. -/
theorem c4_expose_unexpose_cycle (st : BusState) (c : String) (sk1 sk2 : Callback)
    (gets : Nat → Option RpcResponse) (timeout : Option Nat)
    (h1 : alookup st.remote_fns c = none)
    (h2 : alookup st.subscribers (c, false) = none) :
    ∃ st1,
      busExpose st c sk1 = (st1, none) ∧
      busUnexpose st1 c = some st ∧
      publishCount st c = 0 ∧
      stubInvoke (some (publishCount st c)) gets c timeout false =
        .error (.noSuchRemote c) ∧
      (busExpose st c sk2).2 = none := by
  refine ⟨⟨st.subscribers ++ [((c, false), [sk1])], st.remote_fns ++ [(c, sk1)]⟩,
    ?_, ?_, ?_, ?_, ?_⟩
  · simp only [busExpose, h1, busSubscribe, alookup_none_aset _ _ _ h1]
    simp [h2, alookup_none_aset _ _ _ h2]
  · simp only [busUnexpose, alookup_append_one _ _ _ h1, busUnsubscribe,
      alookup_append_one _ _ _ h2, listRemoveFirst]
    simp [aremoveKey_append_one _ _ _ h2, aremoveKey_append_one _ _ _ h1]
  · simp [publishCount, h2]
  · simp [publishCount, h2, stubInvoke]
  · simp [busExpose, h1]

/-- Witness for `c4_expose_unexpose_cycle` on the fresh bus and channel
`"myfn"`. -/
theorem c4_expose_unexpose_cycle_witness :
    ∃ st1,
      busExpose ⟨[], []⟩ "myfn" 1 = (st1, none) ∧
      busUnexpose st1 "myfn" = some ⟨[], []⟩ ∧
      publishCount ⟨[], []⟩ "myfn" = 0 ∧
      stubInvoke (some (publishCount ⟨[], []⟩ "myfn")) (fun _ => none) "myfn" none
          false = .error (.noSuchRemote "myfn") ∧
      (busExpose ⟨[], []⟩ "myfn" 2).2 = none :=
  c4_expose_unexpose_cycle ⟨[], []⟩ "myfn" 1 2 (fun _ => none) none rfl rfl

/-! ## Module-level bus state before `init` (`pymq/core.py`)

The module keeps a global optional bus reference (`_bus`), a listener
buffer (`_listeners`) filled before a transport is bound, and the exposed
function map.  The bound adapter is opaque here (`Nat`). -/

structure CoreState where
  bus : Option Nat
  listeners : List ((String × Bool) × List Callback)

/-- Observable outcome of a module-level call. -/
inductive CoreOutcome where
  | warnedNone
  | delegated (bus : Nat)
  | raisedValue (msg : String)
  | buffered

/-- `pymq.core.publish` (`core.py` lines 149–157): with no bus bound it
logs an error and returns `None` without raising and without touching any
transport. -/
def corePublish (s : CoreState) : CoreOutcome :=
  match s.bus with
  | none => .warnedNone
  | some b => .delegated b

/-- `pymq.core.queue` (`core.py` lines 160–165): with no bus bound it
raises `ValueError('Bus not set yet')`. -/
def coreQueue (s : CoreState) : CoreOutcome :=
  match s.bus with
  | none => .raisedValue "Bus not set yet"
  | some b => .delegated b

/-- Modelled from the spec: `stub` is re-exported by `pymq/__init__.py`
from `pymq.core`, whose current revision is not in the source tree (the
`pymq/core.py` present is an older revision without a `stub` function).
Spec §4.4/§7: while unbound, `stub` fails synchronously with the
"bus not set" error. -/
def coreStub (s : CoreState) : CoreOutcome :=
  match s.bus with
  | none => .raisedValue "Bus not set yet"
  | some b => .delegated b

/-- `pymq.core.add_listener` (`core.py` lines 100–111) with an explicit
channel: the callback is appended to the module-level `_listeners` buffer;
delegation to the bus happens only once one is bound. -/
def coreAddListener (s : CoreState) (cb : Callback) (ch : String) (pat : Bool) :
    CoreState × CoreOutcome :=
  let ls := aset s.listeners (ch, pat)
    ((alookup s.listeners (ch, pat)).getD [] ++ [cb])
  (⟨s.bus, ls⟩,
   match s.bus with
   | none => .buffered
   | some b => .delegated b)

theorem alookup_aset_self {α β : Type} [DecidableEq α] (l : List (α × β))
    (k : α) (b : β) : alookup (aset l k b) k = some b := by
  induction l with
  | nil => simp [aset, alookup]
  | cons hd tl ih =>
    obtain ⟨k2, b2⟩ := hd
    simp only [aset]
    split
    · simp [alookup]
    · next hne => simp [alookup, hne, ih]

/-! ## Claim C6: unbound-bus behavior -/

/-- C6.  While no transport is bound: `publish` performs no delivery and
returns without raising (a warned no-op with `None` result); `queue` and
`stub` fail synchronously with the `ValueError('Bus not set yet')` error;
and `subscribe` (`add_listener`) is buffered into the module registry
without raising. -/
theorem c6_unbound_bus (s : CoreState) (cb : Callback) (ch : String) (pat : Bool)
    (h : s.bus = none) :
    corePublish s = .warnedNone ∧
    coreQueue s = .raisedValue "Bus not set yet" ∧
    coreStub s = .raisedValue "Bus not set yet" ∧
    (coreAddListener s cb ch pat).2 = .buffered ∧
    alookup (coreAddListener s cb ch pat).1.listeners (ch, pat) =
      some ((alookup s.listeners (ch, pat)).getD [] ++ [cb]) := by
  exact ⟨by simp [corePublish, h], by simp [coreQueue, h], by simp [coreStub, h],
    by simp [coreAddListener, h], by simp [coreAddListener, alookup_aset_self]⟩

/-- Witness for `c6_unbound_bus`: the fresh module state (no bus, empty
buffer), subscribing on channel `"early"`. -/
theorem c6_unbound_bus_witness :
    corePublish ⟨none, []⟩ = .warnedNone ∧
    coreQueue ⟨none, []⟩ = .raisedValue "Bus not set yet" ∧
    coreStub ⟨none, []⟩ = .raisedValue "Bus not set yet" ∧
    (coreAddListener ⟨none, []⟩ 1 "early" false).2 = .buffered ∧
    alookup (coreAddListener ⟨none, []⟩ 1 "early" false).1.listeners
        ("early", false) =
      some ((alookup (CoreState.mk none []).listeners ("early", false)).getD []
        ++ [1]) :=
  c6_unbound_bus ⟨none, []⟩ 1 "early" false rfl

/-! ## SNS topic-name codec (`pymq/provider/aws.py` lines 48–76)

Channel names are modelled as character lists.  `replaceAll` is Python's
`str.replace`: scan left to right, replace each non-overlapping occurrence
of the pattern, never rescanning replacement text.  The scan is driven by
fuel (the input length) so that it is structurally recursive and
computable by the kernel. -/

def replAux (pat rep : List Char) : Nat → List Char → List Char
  | 0, l => l
  | _ + 1, [] => []
  | fuel + 1, c :: rest =>
    if pat.isPrefixOf (c :: rest) then
      rep ++ replAux pat rep fuel ((c :: rest).drop pat.length)
    else c :: replAux pat rep fuel rest

def replaceAll (pat rep l : List Char) : List Char :=
  replAux pat rep l.length l

/-- `encode_topic_name` (`aws.py` lines 48–61): `*`, `/`, `.`, `:` become
`_WCD_`, `_FWS_`, `_DOT_`, `_COL_` in that order. -/
def encode_topic_name (s : List Char) : List Char :=
  replaceAll [':'] ['_', 'C', 'O', 'L', '_']
    (replaceAll ['.'] ['_', 'D', 'O', 'T', '_']
      (replaceAll ['/'] ['_', 'F', 'W', 'S', '_']
        (replaceAll ['*'] ['_', 'W', 'C', 'D', '_'] s)))

/-- `decode_topic_name` (`aws.py` lines 64–76): the markers are replaced
back, `_WCD_` first, then `_FWS_`, `_DOT_`, `_COL_`. -/
def decode_topic_name (s : List Char) : List Char :=
  replaceAll ['_', 'C', 'O', 'L', '_'] [':']
    (replaceAll ['_', 'D', 'O', 'T', '_'] ['.']
      (replaceAll ['_', 'F', 'W', 'S', '_'] ['/']
        (replaceAll ['_', 'W', 'C', 'D', '_'] ['*'] s)))

theorem replAux_fuel (pat rep : List Char) (hpat : pat ≠ []) :
    ∀ fuel1 fuel2 l, l.length ≤ fuel1 → l.length ≤ fuel2 →
      replAux pat rep fuel1 l = replAux pat rep fuel2 l := by
  intro fuel1
  induction fuel1 with
  | zero =>
    intro fuel2 l h1 _
    have : l = [] := List.eq_nil_of_length_eq_zero (by omega)
    subst this
    cases fuel2 <;> rfl
  | succ f1 ih =>
    intro fuel2 l h1 h2
    cases l with
    | nil => cases fuel2 <;> rfl
    | cons c rest =>
      cases fuel2 with
      | zero => simp at h2
      | succ f2 =>
        simp only [replAux]
        split
        · next hp =>
          have hlen : pat.length ≥ 1 := by
            cases pat with
            | nil => exact absurd rfl hpat
            | cons p ps => simp
          have hd : ((c :: rest).drop pat.length).length ≤ f1 := by
            simp only [List.length_drop, List.length_cons]
            simp only [List.length_cons] at h1
            omega
          have hd2 : ((c :: rest).drop pat.length).length ≤ f2 := by
            simp only [List.length_drop, List.length_cons]
            simp only [List.length_cons] at h2
            omega
          rw [ih _ _ hd hd2]
        · have hr : rest.length ≤ f1 := by simp at h1; omega
          have hr2 : rest.length ≤ f2 := by simp at h2; omega
          rw [ih _ _ hr hr2]

theorem replaceAll_nil (pat rep : List Char) : replaceAll pat rep [] = [] := rfl

theorem replaceAll_pos (pat rep t : List Char) (hpat : pat ≠ []) :
    replaceAll pat rep (pat ++ t) = rep ++ replaceAll pat rep t := by
  obtain ⟨p, ps, hp⟩ : ∃ p ps, pat = p :: ps := by
    cases pat with
    | nil => exact absurd rfl hpat
    | cons p ps => exact ⟨p, ps, rfl⟩
  have hcons : pat ++ t = p :: (ps ++ t) := by rw [hp]; rfl
  unfold replaceAll
  rw [hcons]
  simp only [List.length_cons, replAux]
  rw [← hcons, if_pos (List.isPrefixOf_iff_prefix.mpr (List.prefix_append pat t)),
    List.drop_left]
  congr 1
  exact replAux_fuel pat rep hpat _ _ t (by simp [List.length_append]) (le_refl _)

theorem replaceAll_neg (pat rep : List Char) (c : Char) (rest : List Char)
    (h : ¬ pat <+: (c :: rest)) :
    replaceAll pat rep (c :: rest) = c :: replaceAll pat rep rest := by
  show replAux pat rep (c :: rest).length (c :: rest) = _
  simp only [List.length_cons, replAux]
  rw [if_neg (fun hb => h (List.isPrefixOf_iff_prefix.mp hb))]
  rfl

/-! Prefixes made of non-underscore characters pass through a
marker-or-identity character encoding. -/

theorem flatMap_prefix_letters (f : Char → List Char)
    (hf : ∀ c, f c = [c] ∨ (f c).head? = some '_') :
    ∀ (p t : List Char), (∀ a ∈ p, a ≠ '_') → p <+: t.flatMap f → p <+: t := by
  intro p
  induction p with
  | nil => intro t _ _; exact List.nil_prefix
  | cons a p2 ih =>
    intro t hp hpre
    cases t with
    | nil => simp at hpre
    | cons c t2 =>
      rw [List.flatMap_cons] at hpre
      rcases hf c with hc | hc
      · rw [hc] at hpre
        simp only [List.cons_append, List.nil_append] at hpre
        rw [List.cons_prefix_cons] at hpre ⊢
        exact ⟨hpre.1, ih t2 (fun x hx => hp x (List.mem_cons_of_mem a hx)) hpre.2⟩
      · exfalso
        cases hfc : f c with
        | nil => rw [hfc] at hc; simp at hc
        | cons d ds =>
          rw [hfc] at hc hpre
          simp only [List.head?_cons, Option.some.injEq] at hc
          subst hc
          simp only [List.cons_append, List.cons_prefix_cons] at hpre
          exact hp a (List.mem_cons_self a p2) hpre.1

theorem trip_not_prefix_flatMap (f : Char → List Char)
    (hf : ∀ c, f c = [c] ∨ (f c).head? = some '_')
    (trip : List Char) (htrip : ∀ a ∈ trip, a ≠ '_')
    (t : List Char) (h : ¬ trip <:+: t) (ext : List Char) :
    ¬ ((trip ++ ext) <+: t.flatMap f) := by
  intro hp
  exact h (flatMap_prefix_letters f hf trip t htrip
    ((List.prefix_append trip ext).trans hp)).isInfix

/-! Intermediate character encodings: `encChar0` is the full encoding
(one character of the original name to its wire form), and `encChar1/2/3`
are the states after the first one, two, three decode passes have
restored `*`, `/`, `.` respectively. -/

def encChar0 (c : Char) : List Char :=
  if c = '*' then ['_', 'W', 'C', 'D', '_']
  else if c = '/' then ['_', 'F', 'W', 'S', '_']
  else if c = '.' then ['_', 'D', 'O', 'T', '_']
  else if c = ':' then ['_', 'C', 'O', 'L', '_']
  else [c]

def encChar1 (c : Char) : List Char :=
  if c = '/' then ['_', 'F', 'W', 'S', '_']
  else if c = '.' then ['_', 'D', 'O', 'T', '_']
  else if c = ':' then ['_', 'C', 'O', 'L', '_']
  else [c]

def encChar2 (c : Char) : List Char :=
  if c = '.' then ['_', 'D', 'O', 'T', '_']
  else if c = ':' then ['_', 'C', 'O', 'L', '_']
  else [c]

def encChar3 (c : Char) : List Char :=
  if c = ':' then ['_', 'C', 'O', 'L', '_'] else [c]

theorem replaceAll_single (a : Char) (rep l : List Char) :
    replaceAll [a] rep l = l.flatMap (fun c => if c = a then rep else [c]) := by
  induction l with
  | nil => rfl
  | cons c l2 ih =>
    by_cases hc : c = a
    · subst hc
      have : replaceAll [c] rep (c :: l2) = rep ++ replaceAll [c] rep l2 :=
        replaceAll_pos [c] rep l2 (by simp)
      rw [this, ih]
      simp [List.flatMap_cons]
    · rw [replaceAll_neg _ _ _ _ (by
        rw [List.cons_prefix_cons]
        rintro ⟨h1, -⟩
        exact hc h1.symm), ih]
      simp [List.flatMap_cons, hc]

theorem encode_eq_flatMap (s : List Char) :
    encode_topic_name s = s.flatMap encChar0 := by
  unfold encode_topic_name
  rw [replaceAll_single, replaceAll_single, replaceAll_single, replaceAll_single]
  simp only [List.flatMap_assoc]
  congr 1
  funext c
  by_cases h1 : c = '*'
  · subst h1; decide
  by_cases h2 : c = '/'
  · subst h2; decide
  by_cases h3 : c = '.'
  · subst h3; decide
  by_cases h4 : c = ':'
  · subst h4; decide
  simp [h1, h2, h3, h4, encChar0, List.flatMap_cons]

/-- One decode pass over an encoded stream: the pass's own marker decodes
back to its character, every other block is copied verbatim (the
block-skip behavior is a hypothesis, established per pass). -/
theorem decode_pass (fEnc fDec : Char → List Char) (special : Char)
    (trip : List Char)
    (henc : fEnc special = '_' :: (trip ++ ['_']))
    (hdec : fDec special = [special])
    (hsame : ∀ c, c ≠ special → fEnc c = fDec c)
    (hskip : ∀ c t, c ≠ special → ¬ ((trip ++ ['_']) <+: t) →
      replaceAll ('_' :: (trip ++ ['_'])) [special] (fEnc c ++ t) =
        fEnc c ++ replaceAll ('_' :: (trip ++ ['_'])) [special] t)
    (hf : ∀ c, fEnc c = [c] ∨ (fEnc c).head? = some '_')
    (htrip : ∀ a ∈ trip, a ≠ '_') :
    ∀ s, ¬ (trip <:+: s) →
      replaceAll ('_' :: (trip ++ ['_'])) [special] (s.flatMap fEnc) =
        s.flatMap fDec := by
  intro s
  induction s with
  | nil => intro _; rfl
  | cons c s2 ih =>
    intro h
    have h2 : ¬ (trip <:+: s2) := fun hi => h (List.infix_cons hi)
    rw [List.flatMap_cons, List.flatMap_cons]
    by_cases hc : c = special
    · subst hc
      rw [henc, replaceAll_pos _ _ _ (by simp), ih h2, hdec]
    · rw [hskip c _ hc (trip_not_prefix_flatMap fEnc hf trip htrip s2 h2 ['_']),
        ih h2, hsame c hc]

theorem not_prefix_head (r : List Char) (c : Char) (t : List Char) (h : c ≠ '_') :
    ¬ ('_' :: r) <+: (c :: t) := by
  rw [List.cons_prefix_cons]
  rintro ⟨h1, -⟩
  exact h h1.symm

theorem not_prefix_second (x y : Char) (r t : List Char) (h : x ≠ y) :
    ¬ ('_' :: x :: r) <+: ('_' :: y :: t) := by
  rw [List.cons_prefix_cons, List.cons_prefix_cons]
  rintro ⟨-, h2, -⟩
  exact h h2

theorem not_prefix_und (r t : List Char) (h : ¬ r <+: t) :
    ¬ ('_' :: r) <+: ('_' :: t) := by
  rw [List.cons_prefix_cons]
  rintro ⟨-, h2⟩
  exact h h2

theorem encChar0_shape (c : Char) : encChar0 c = [c] ∨ (encChar0 c).head? = some '_' := by
  by_cases h1 : c = '*'
  · subst h1; right; rfl
  by_cases h2 : c = '/'
  · subst h2; right; rfl
  by_cases h3 : c = '.'
  · subst h3; right; rfl
  by_cases h4 : c = ':'
  · subst h4; right; rfl
  left; simp [encChar0, h1, h2, h3, h4]

theorem encChar1_shape (c : Char) : encChar1 c = [c] ∨ (encChar1 c).head? = some '_' := by
  by_cases h2 : c = '/'
  · subst h2; right; rfl
  by_cases h3 : c = '.'
  · subst h3; right; rfl
  by_cases h4 : c = ':'
  · subst h4; right; rfl
  left; simp [encChar1, h2, h3, h4]

theorem encChar2_shape (c : Char) : encChar2 c = [c] ∨ (encChar2 c).head? = some '_' := by
  by_cases h3 : c = '.'
  · subst h3; right; rfl
  by_cases h4 : c = ':'
  · subst h4; right; rfl
  left; simp [encChar2, h3, h4]

theorem encChar3_shape (c : Char) : encChar3 c = [c] ∨ (encChar3 c).head? = some '_' := by
  by_cases h4 : c = ':'
  · subst h4; right; rfl
  left; simp [encChar3, h4]

theorem decode_pass_wcd (s : List Char) (h : ¬ (['W', 'C', 'D'] <:+: s)) :
    replaceAll ('_' :: (['W', 'C', 'D'] ++ ['_'])) ['*'] (s.flatMap encChar0) =
      s.flatMap encChar1 := by
  have hskip : ∀ (c : Char) (t : List Char), c ≠ '*' →
      ¬ (['W', 'C', 'D', '_'] <+: t) →
      replaceAll ['_', 'W', 'C', 'D', '_'] ['*'] (encChar0 c ++ t) =
        encChar0 c ++ replaceAll ['_', 'W', 'C', 'D', '_'] ['*'] t := by
    intro c t hc hnp
    by_cases h2 : c = '/'
    · subst h2
      show replaceAll _ _ ('_' :: 'F' :: 'W' :: 'S' :: '_' :: t) = _
      rw [replaceAll_neg _ _ _ _ (not_prefix_second 'W' 'F' _ _ (by decide)),
        replaceAll_neg _ _ _ _ (not_prefix_head _ 'F' _ (by decide)),
        replaceAll_neg _ _ _ _ (not_prefix_head _ 'W' _ (by decide)),
        replaceAll_neg _ _ _ _ (not_prefix_head _ 'S' _ (by decide)),
        replaceAll_neg _ _ _ _ (not_prefix_und _ _ hnp)]
      rfl
    by_cases h3 : c = '.'
    · subst h3
      show replaceAll _ _ ('_' :: 'D' :: 'O' :: 'T' :: '_' :: t) = _
      rw [replaceAll_neg _ _ _ _ (not_prefix_second 'W' 'D' _ _ (by decide)),
        replaceAll_neg _ _ _ _ (not_prefix_head _ 'D' _ (by decide)),
        replaceAll_neg _ _ _ _ (not_prefix_head _ 'O' _ (by decide)),
        replaceAll_neg _ _ _ _ (not_prefix_head _ 'T' _ (by decide)),
        replaceAll_neg _ _ _ _ (not_prefix_und _ _ hnp)]
      rfl
    by_cases h4 : c = ':'
    · subst h4
      show replaceAll _ _ ('_' :: 'C' :: 'O' :: 'L' :: '_' :: t) = _
      rw [replaceAll_neg _ _ _ _ (not_prefix_second 'W' 'C' _ _ (by decide)),
        replaceAll_neg _ _ _ _ (not_prefix_head _ 'C' _ (by decide)),
        replaceAll_neg _ _ _ _ (not_prefix_head _ 'O' _ (by decide)),
        replaceAll_neg _ _ _ _ (not_prefix_head _ 'L' _ (by decide)),
        replaceAll_neg _ _ _ _ (not_prefix_und _ _ hnp)]
      rfl
    have hcs : encChar0 c = [c] := by simp [encChar0, hc, h2, h3, h4]
    rw [hcs]
    show replaceAll _ _ (c :: t) = _
    by_cases hu : c = '_'
    · subst hu
      rw [replaceAll_neg _ _ _ _ (not_prefix_und _ _ hnp)]
      rfl
    · rw [replaceAll_neg _ _ _ _ (not_prefix_head _ c _ hu)]
      rfl
  exact decode_pass encChar0 encChar1 '*' ['W', 'C', 'D'] (by decide) (by decide)
    (fun c hc => by simp [encChar0, encChar1, hc]) hskip encChar0_shape (by decide) s h

theorem decode_pass_fws (s : List Char) (h : ¬ (['F', 'W', 'S'] <:+: s)) :
    replaceAll ('_' :: (['F', 'W', 'S'] ++ ['_'])) ['/'] (s.flatMap encChar1) =
      s.flatMap encChar2 := by
  have hskip : ∀ (c : Char) (t : List Char), c ≠ '/' →
      ¬ (['F', 'W', 'S', '_'] <+: t) →
      replaceAll ['_', 'F', 'W', 'S', '_'] ['/'] (encChar1 c ++ t) =
        encChar1 c ++ replaceAll ['_', 'F', 'W', 'S', '_'] ['/'] t := by
    intro c t hc hnp
    by_cases h3 : c = '.'
    · subst h3
      show replaceAll _ _ ('_' :: 'D' :: 'O' :: 'T' :: '_' :: t) = _
      rw [replaceAll_neg _ _ _ _ (not_prefix_second 'F' 'D' _ _ (by decide)),
        replaceAll_neg _ _ _ _ (not_prefix_head _ 'D' _ (by decide)),
        replaceAll_neg _ _ _ _ (not_prefix_head _ 'O' _ (by decide)),
        replaceAll_neg _ _ _ _ (not_prefix_head _ 'T' _ (by decide)),
        replaceAll_neg _ _ _ _ (not_prefix_und _ _ hnp)]
      rfl
    by_cases h4 : c = ':'
    · subst h4
      show replaceAll _ _ ('_' :: 'C' :: 'O' :: 'L' :: '_' :: t) = _
      rw [replaceAll_neg _ _ _ _ (not_prefix_second 'F' 'C' _ _ (by decide)),
        replaceAll_neg _ _ _ _ (not_prefix_head _ 'C' _ (by decide)),
        replaceAll_neg _ _ _ _ (not_prefix_head _ 'O' _ (by decide)),
        replaceAll_neg _ _ _ _ (not_prefix_head _ 'L' _ (by decide)),
        replaceAll_neg _ _ _ _ (not_prefix_und _ _ hnp)]
      rfl
    have hcs : encChar1 c = [c] := by simp [encChar1, hc, h3, h4]
    rw [hcs]
    show replaceAll _ _ (c :: t) = _
    by_cases hu : c = '_'
    · subst hu
      rw [replaceAll_neg _ _ _ _ (not_prefix_und _ _ hnp)]
      rfl
    · rw [replaceAll_neg _ _ _ _ (not_prefix_head _ c _ hu)]
      rfl
  exact decode_pass encChar1 encChar2 '/' ['F', 'W', 'S'] (by decide) (by decide)
    (fun c hc => by simp [encChar1, encChar2, hc]) hskip encChar1_shape (by decide) s h

theorem decode_pass_dot (s : List Char) (h : ¬ (['D', 'O', 'T'] <:+: s)) :
    replaceAll ('_' :: (['D', 'O', 'T'] ++ ['_'])) ['.'] (s.flatMap encChar2) =
      s.flatMap encChar3 := by
  have hskip : ∀ (c : Char) (t : List Char), c ≠ '.' →
      ¬ (['D', 'O', 'T', '_'] <+: t) →
      replaceAll ['_', 'D', 'O', 'T', '_'] ['.'] (encChar2 c ++ t) =
        encChar2 c ++ replaceAll ['_', 'D', 'O', 'T', '_'] ['.'] t := by
    intro c t hc hnp
    by_cases h4 : c = ':'
    · subst h4
      show replaceAll _ _ ('_' :: 'C' :: 'O' :: 'L' :: '_' :: t) = _
      rw [replaceAll_neg _ _ _ _ (not_prefix_second 'D' 'C' _ _ (by decide)),
        replaceAll_neg _ _ _ _ (not_prefix_head _ 'C' _ (by decide)),
        replaceAll_neg _ _ _ _ (not_prefix_head _ 'O' _ (by decide)),
        replaceAll_neg _ _ _ _ (not_prefix_head _ 'L' _ (by decide)),
        replaceAll_neg _ _ _ _ (not_prefix_und _ _ hnp)]
      rfl
    have hcs : encChar2 c = [c] := by simp [encChar2, hc, h4]
    rw [hcs]
    show replaceAll _ _ (c :: t) = _
    by_cases hu : c = '_'
    · subst hu
      rw [replaceAll_neg _ _ _ _ (not_prefix_und _ _ hnp)]
      rfl
    · rw [replaceAll_neg _ _ _ _ (not_prefix_head _ c _ hu)]
      rfl
  exact decode_pass encChar2 encChar3 '.' ['D', 'O', 'T'] (by decide) (by decide)
    (fun c hc => by simp [encChar2, encChar3, hc]) hskip encChar2_shape (by decide) s h

theorem decode_pass_col (s : List Char) (h : ¬ (['C', 'O', 'L'] <:+: s)) :
    replaceAll ('_' :: (['C', 'O', 'L'] ++ ['_'])) [':'] (s.flatMap encChar3) = s := by
  have hskip : ∀ (c : Char) (t : List Char), c ≠ ':' →
      ¬ (['C', 'O', 'L', '_'] <+: t) →
      replaceAll ['_', 'C', 'O', 'L', '_'] [':'] (encChar3 c ++ t) =
        encChar3 c ++ replaceAll ['_', 'C', 'O', 'L', '_'] [':'] t := by
    intro c t hc hnp
    have hcs : encChar3 c = [c] := by simp [encChar3, hc]
    rw [hcs]
    show replaceAll _ _ (c :: t) = _
    by_cases hu : c = '_'
    · subst hu
      rw [replaceAll_neg _ _ _ _ (not_prefix_und _ _ hnp)]
      rfl
    · rw [replaceAll_neg _ _ _ _ (not_prefix_head _ c _ hu)]
      rfl
  rw [decode_pass encChar3 (fun c => [c]) ':' ['C', 'O', 'L'] (by decide) (by decide)
    (fun c hc => by simp [encChar3, hc]) hskip encChar3_shape (by decide) s h,
    List.flatMap_singleton']

/-! ## Claim C8: channel-name codec inverse -/

/-- Claim C8, as stated, is false: for the channel name `"_WCD_"` (which
contains a marker literally), encoding is the identity (no `*`, `/`, `.`,
`:` to replace) but decoding turns it into `"*"`. -/
theorem c8_topic_name_cex :
    decode_topic_name (encode_topic_name ['_', 'W', 'C', 'D', '_']) ≠
      ['_', 'W', 'C', 'D', '_'] := by decide

/-- C8 (amended).  `encode_topic_name` and `decode_topic_name` are inverse
on every channel name that does not contain any of the marker letter
triples `WCD`, `FWS`, `DOT`, `COL` as a substring (in particular on the
core `module.Qualname` naming scheme):
`decode_topic_name (encode_topic_name s) = s`. -/
theorem c8_topic_name_codec (s : List Char)
    (h1 : ¬ (['W', 'C', 'D'] <:+: s)) (h2 : ¬ (['F', 'W', 'S'] <:+: s))
    (h3 : ¬ (['D', 'O', 'T'] <:+: s)) (h4 : ¬ (['C', 'O', 'L'] <:+: s)) :
    decode_topic_name (encode_topic_name s) = s := by
  rw [encode_eq_flatMap]
  show replaceAll ('_' :: (['C', 'O', 'L'] ++ ['_'])) [':']
      (replaceAll ('_' :: (['D', 'O', 'T'] ++ ['_'])) ['.']
        (replaceAll ('_' :: (['F', 'W', 'S'] ++ ['_'])) ['/']
          (replaceAll ('_' :: (['W', 'C', 'D'] ++ ['_'])) ['*']
            (s.flatMap encChar0)))) = s
  rw [decode_pass_wcd s h1, decode_pass_fws s h2, decode_pass_dot s h3,
    decode_pass_col s h4]

/-- Witness for `c8_topic_name_codec` at the name `my.program/foo:*`. -/
theorem c8_topic_name_codec_witness :
    decode_topic_name (encode_topic_name
      ['m', 'y', '.', 'p', 'r', 'o', 'g', 'r', 'a', 'm', '/', 'f', 'o', 'o',
        ':', '*']) =
      ['m', 'y', '.', 'p', 'r', 'o', 'g', 'r', 'a', 'm', '/', 'f', 'o', 'o',
        ':', '*'] :=
  c8_topic_name_codec _ (by decide) (by decide) (by decide) (by decide)

/-! ## JSON layer (`pymq/json.py`)

`DeepDictEncoder.encode` produces a JSON text; `DeepDictDecoder.decode`
parses one.  The composition of `json.dumps` and `json.loads` on a
document is modelled by `jsonNorm`: primitives survive, tuples become
lists, dict keys become strings (ints in decimal, booleans as
`true`/`false`, `None` as `null`; duplicate keys after stringification
resolve by assignment order), and bytes/sets/objects raise `TypeError`.
Float keys (serialized via `repr`) are not modelled. -/

def jsonKey : Doc → Option String
  | .dstr s => some s
  | .dint n => some (toString n)
  | .dbool b => some (if b then "true" else "false")
  | .dnone => some "null"
  | _ => none

/-- Python dict assignment `d[k] = v` for string-keyed entries: replace in
place or append. -/
def dentriesSet : DEntries → String → Doc → DEntries
  | .nil, k, v => .cons (.dstr k) v .nil
  | .cons k2 v2 tl, k, v =>
    if keyMatches k2 k then .cons (.dstr k) v tl
    else .cons k2 v2 (dentriesSet tl k v)

/-- Rebuilding a parsed JSON object by successive assignment (duplicate
keys keep the first position, last value). -/
def dedupAssign : DEntries → DEntries → DEntries
  | acc, .nil => acc
  | acc, .cons k v tl =>
    match k with
    | .dstr s => dedupAssign (dentriesSet acc s v) tl
    | _ => dedupAssign acc tl

mutual

def jsonNorm : Doc → Option Doc
  | .dnone => some .dnone
  | .dbool b => some (.dbool b)
  | .dint n => some (.dint n)
  | .dfloat f => some (.dfloat f)
  | .dstr s => some (.dstr s)
  | .dbytes _ => none
  | .dlist l => (jsonNormList l).map .dlist
  | .dtuple l => (jsonNormList l).map .dlist
  | .dset _ => none
  | .ddict es => (jsonNormEntries es).map fun es2 => .ddict (dedupAssign .nil es2)

def jsonNormList : DList → Option DList
  | .nil => some .nil
  | .cons d tl => (jsonNorm d).bind fun d2 => (jsonNormList tl).map (.cons d2)

def jsonNormEntries : DEntries → Option DEntries
  | .nil => some .nil
  | .cons k v tl =>
    (jsonKey k).bind fun ks =>
      (jsonNorm v).bind fun v2 =>
        (jsonNormEntries tl).map (.cons (.dstr ks) v2)

end

def isPrimV : Value → Bool
  | .vbool _ => true
  | .vint _ => true
  | .vfloat _ => true
  | .vstr _ => true
  | .vbytes _ => true
  | _ => false

/-- `DeepDictEncoder.encode` (`pymq/json.py` lines 10–31), composed with
the parse of the produced JSON text.  Primitives, dicts, and lists with a
primitive first element are serialized raw (`super().encode(obj)`); a
non-empty list with a non-primitive first element is deep-converted and
wrapped as `{"__list": ..., "__type": fullname(obj[0])}`; any other value
is deep-converted and either receives a `__type` entry (dict documents) or
is wrapped as `{"__obj": ..., "__type": ...}`. -/
def encodeTop (v : Value) : Option Doc :=
  match v with
  | .vbool b => (valueAsDoc (.vbool b)).bind jsonNorm
  | .vint n => (valueAsDoc (.vint n)).bind jsonNorm
  | .vfloat f => (valueAsDoc (.vfloat f)).bind jsonNorm
  | .vstr s => (valueAsDoc (.vstr s)).bind jsonNorm
  | .vbytes bs => (valueAsDoc (.vbytes bs)).bind jsonNorm
  | .vdict es => (valueAsDoc (.vdict es)).bind jsonNorm
  | .vlist .nil => some (.dlist .nil)
  | .vlist (.cons h tl) =>
    if isPrimV h then (valueAsDoc (.vlist (.cons h tl))).bind jsonNorm
    else
      (deep_to_dict (.vlist (.cons h tl))).bind fun doc =>
        jsonNorm (.ddict (.cons (.dstr "__list") doc
          (.cons (.dstr "__type") (.dstr (fullname h)) .nil)))
  | v =>
    (deep_to_dict v).bind fun doc =>
      match doc with
      | .ddict es =>
        jsonNorm (.ddict (dentriesSet es "__type" (.dstr (fullname v))))
      | d =>
        jsonNorm (.ddict (.cons (.dstr "__obj") d
          (.cons (.dstr "__type") (.dstr (fullname v)) .nil)))

/-- Delete `doc["__type"]` (first matching entry). -/
def dentriesDel (es : DEntries) (k : String) : DEntries :=
  match es with
  | .nil => .nil
  | .cons k2 v tl =>
    if keyMatches k2 k then tl else .cons k2 v (dentriesDel tl k)

/-- `DeepDictDecoder.decode` (`pymq/json.py` lines 34–68) applied to a
parsed document, with the optional target class of `for_type`.  `env`
models `load_class` (`pydoc.locate`); decoding a tag that does not resolve
degrades in Python (`cls` stays `None` or becomes `List[None]`) and is not
modelled (`none`), as is the pathological string-membership behavior of
`"__type" in doc` on list documents whose elements collide with the tag
names. -/
def decodeTop (env : String → Option Ty) (target : Option Ty) (doc : Doc) :
    Option Value :=
  match doc with
  | .ddict es =>
    let cls? : Option (Option Ty) :=
      match target with
      | some t => some (some t)
      | none =>
        match lookupDE es "__type", (lookupDE es "__list").isSome with
        | some (.dstr tag), true => (env tag).map fun t => some (.tlist t)
        | some (.dstr tag), false => (env tag).map fun t => some t
        | some _, _ => none
        | none, true => none
        | none, false => some none
    match cls? with
    | none => none
    | some cls =>
      let es2 := if (lookupDE es "__type").isSome then dentriesDel es "__type" else es
      let doc2 : Doc :=
        match lookupDE es2 "__obj" with
        | some d => d
        | none =>
          match lookupDE es2 "__list" with
          | some d => d
          | none => .ddict es2
      match cls with
      | some t => deep_from_dict doc2 t
      | none => some (docToValue doc2)
  | .dlist l =>
    if dlMemStr l "__type" then none
    else
      match target with
      | none =>
        if dlMemStr l "__list" then none
        else if dlMemStr l "__obj" then none
        else some (docToValue (.dlist l))
      | some t =>
        if dlMemStr l "__obj" then none
        else if dlMemStr l "__list" then none
        else deep_from_dict (.dlist l) t
  | d =>
    match target with
    | none => some (docToValue d)
    | some t => deep_from_dict d t

/-! ## Claim C9: list encoding is tagged by the first element only -/

/-- C9.  For a non-empty list whose first element is not a primitive, the
encoder emits `{"__list": <deep documents>, "__type": fullname(first)}`,
and decoding that document with target "any" looks the single tagged class
up and reconstructs *every* element at that one type — so a heterogeneous
list comes back with all elements coerced to the first element's type. -/
theorem c9_list_tagged_by_head (env : String → Option Ty) (h : Value)
    (tl : VList) (T : Ty) (d : Doc)
    (hprim : isPrimV h = false)
    (henv : env (fullname h) = some T)
    (henc : encodeTop (.vlist (.cons h tl)) = some d) :
    ∃ es, d = .ddict (.cons (.dstr "__list") (.dlist es)
        (.cons (.dstr "__type") (.dstr (fullname h)) .nil)) ∧
      decodeTop env none d = (dfdList es T).map .vlist := by
  have k1 : keyMatches (.dstr "__list") "__type" = false := by decide
  have k2 : keyMatches (.dstr "__type") "__type" = true := by decide
  have k3 : keyMatches (.dstr "__list") "__list" = true := by decide
  have k4 : keyMatches (.dstr "__list") "__obj" = false := by decide
  have k5 : keyMatches (.dstr "__type") "__obj" = false := by decide
  simp only [encodeTop, hprim, Bool.false_eq_true, if_false, deep_to_dict] at henc
  cases he : encList (.cons h tl) with
  | none => rw [he] at henc; cases henc
  | some dl =>
    rw [he] at henc
    simp only [Option.map_some', jsonNorm, jsonNormEntries, jsonKey,
      Option.bind] at henc
    cases hn : jsonNormList dl with
    | none => rw [hn] at henc; cases henc
    | some es =>
      rw [hn] at henc
      simp only [Option.map_some', Option.bind, dedupAssign, dentriesSet, k1,
        Bool.false_eq_true, if_false] at henc
      have hd : d = .ddict (.cons (.dstr "__list") (.dlist es)
          (.cons (.dstr "__type") (.dstr (fullname h)) .nil)) :=
        (Option.some.inj henc).symm
      refine ⟨es, hd, ?_⟩
      subst hd
      simp only [decodeTop, lookupDE, k1, k2, k3, k4, k5, henv, Option.isSome_some,
        dentriesDel, if_true, Option.map_some', dfd_list, Bool.false_eq_true,
        if_false]

/-- Record instances of two different classes with the same field layout. -/
def c9A : Value := .vrecord "tests.A" (.cons "x" (.vint 1) .nil)

def c9B : Value := .vrecord "tests.B" (.cons "x" (.vint 2) .nil)

def c9TyA : Ty := .trecord "tests.A" (.cons "x" .tint .nil)

def c9Env : String → Option Ty := fun n => if n = "tests.A" then some c9TyA else none

/-- The wire document of `[c9A, c9B]`. -/
def c9WitDoc : Doc :=
  .ddict (.cons (.dstr "__list")
    (.dlist (.cons (.ddict (.cons (.dstr "x") (.dint 1) .nil))
      (.cons (.ddict (.cons (.dstr "x") (.dint 2) .nil)) .nil)))
    (.cons (.dstr "__type") (.dstr "tests.A") .nil))

/-- Witness for `c9_list_tagged_by_head`: the heterogeneous list
`[A(x=1), B(x=2)]` is tagged `tests.A` only, and decoding at "any" coerces
the `B` element into a `tests.A` instance. -/
theorem c9_list_tagged_by_head_witness :
    (∃ es, c9WitDoc = .ddict (.cons (.dstr "__list") (.dlist es)
        (.cons (.dstr "__type") (.dstr (fullname c9A)) .nil)) ∧
      decodeTop c9Env none c9WitDoc = (dfdList es c9TyA).map .vlist) ∧
    decodeTop c9Env none c9WitDoc =
      some (.vlist (.cons (.vrecord "tests.A" (.cons "x" (.vint 1) .nil))
        (.cons (.vrecord "tests.A" (.cons "x" (.vint 2) .nil)) .nil))) := by
  constructor
  · exact c9_list_tagged_by_head c9Env c9A (.cons c9B .nil) c9TyA c9WitDoc
      rfl rfl rfl
  · simp [decodeTop, c9WitDoc, lookupDE, keyMatches, dentriesDel, c9Env, c9TyA,
      dfd_list, dfdList, dfd_record, dfdFieldsByName, dfd_int]

end Pymq
